import Mathlib

/-!
Verification development for the `ada_gps` GPS driver crate (MTK/NMEA-style
command protocol plus LOCUS flash-log decoding).

Bytes are modelled as `Nat` values below 256.  Fallible Rust functions become
`Except`-valued Lean functions; Rust operations that can panic (slice indexing
out of bounds, `Option::unwrap`) become `Option`-valued functions where `none`
marks the panic.  Field names and function names follow the Rust source
(`src/cmd/serialize.rs`, `src/cmd/parse.rs`, `src/lib.rs`,
`src/logger/parser.rs`, `src/locus/logged_point.rs`, `src/integer_percent.rs`).
-/

namespace AdaGps

/-! ### Checksums and hex rendering (`src/cmd/mod.rs`) -/

/-- XOR checksum over a line of bytes (`Checksum::compute_for`). -/
def compute_for (line : List Nat) : Nat :=
  line.foldl Nat.xor 0

/-- Uppercase hex digit for a value below 16 (rendering of `lexical_core`
hexadecimal output used by `Checksum::to_ascii`). -/
def hexDigitU (d : Nat) : Nat :=
  if d < 10 then 48 + d else 55 + d

/-- `Checksum::to_ascii`: render a `u8` as exactly two uppercase hex digits.
The Rust code writes the minimal digit string and left-pads a single digit
with ASCII `0` (48); for values below 16 that is `[48, digit]`. -/
def to_ascii (n : Nat) : List Nat :=
  if n < 16 then [48, hexDigitU n] else [hexDigitU (n / 16), hexDigitU (n % 16)]

/-- Value of one ASCII hex digit; accepts both cases, as the hexadecimal
parser of `lexical_core` (used by `Checksum::parse`) does. -/
def hexVal (c : Nat) : Option Nat :=
  if 48 ≤ c ∧ c ≤ 57 then some (c - 48)
  else if 65 ≤ c ∧ c ≤ 70 then some (c - 55)
  else if 97 ≤ c ∧ c ≤ 102 then some (c - 87)
  else none

/-- `Checksum::parse`: parse exactly two ASCII hex digits into a byte. -/
def checksum_parse (a b : Nat) : Option Nat :=
  match hexVal a, hexVal b with
  | some x, some y => some (16 * x + y)
  | _, _ => none

/-! ### Frame serializer (`src/cmd/serialize.rs`) -/

/-- The comma-prefixed concatenation of the fields, as pushed by the field
loop of `serialize`. -/
def encodeFields : List (List Nat) → List Nat
  | [] => []
  | f :: fs => 44 :: f ++ encodeFields fs

/-- `serialize`: emit `$`, name, `,field` for each field, `*`, two uppercase
hex checksum digits over the bytes between `$` and `*` exclusive, then
`\r\n`.  Byte codes: `$` = 36, `,` = 44, `*` = 42, `\r` = 13, `\n` = 10. -/
def serialize (name : List Nat) (fields : List (List Nat)) : List Nat :=
  let line := name ++ encodeFields fields
  36 :: line ++ 42 :: to_ascii (compute_for line) ++ [13, 10]

/-! ### Frame parser (`src/cmd/parse.rs`) -/

/-- Error enum of `cmd::parse` (`parse.rs`). -/
inductive ParseErr where
  | ExpectedPrefix
  | ExpectedName
  | ExpectedField
  | ExpectedChecksum
  | ChecksumParse
  | ExpectedSuffix
  | ExpectedEnd
  | WrongChecksum
  | ParseField
  deriving DecidableEq, Repr

/-- The name loop of `parse`: consume bytes into the name until the peeked
byte is `,` or `*` (in which case an empty name is an error), erroring with
`ExpectedName` if the input runs out. -/
def parseNameLoop : List Nat → List Nat → Except ParseErr (List Nat × List Nat)
  | [], _ => .error .ExpectedName
  | c :: cs, acc =>
    if c = 44 ∨ c = 42 then
      if acc = [] then .error .ExpectedName else .ok (acc, c :: cs)
    else parseNameLoop cs (acc ++ [c])

/-- `fields.last_mut().unwrap().push(char)` of the field loop: `none` is the
panic of `unwrap` on an empty field list. -/
def pushLast : List (List Nat) → Nat → Option (List (List Nat))
  | [], _ => none
  | [f], c => some [f ++ [c]]
  | f :: fs, c => (pushLast fs c).map fun r => f :: r

/-- The field loop of `parse`: while the peeked byte is not `*`, a comma
starts a new empty field and any other byte extends the last field
(panicking, `none`, when no field exists yet); exhausting the input is
`ExpectedField`. -/
def parseFieldsLoop :
    List Nat → List (List Nat) → Option (Except ParseErr (List (List Nat) × List Nat))
  | [], _ => some (.error .ExpectedField)
  | c :: cs, acc =>
    if c = 42 then some (.ok (acc, c :: cs))
    else if c = 44 then parseFieldsLoop cs (acc ++ [[]])
    else
      match pushLast acc c with
      | none => none
      | some acc2 => parseFieldsLoop cs acc2

/-- `parse`: decode one frame into `(name, fields)`.  The outer `Option` is
`none` exactly on the two panic points of the Rust function: the
`last_mut().unwrap()` of the field loop and the slice
`cmd[1 .. cmd.len() - 5]` when `cmd.len() < 6`. -/
def parse (cmd : List Nat) :
    Option (Except ParseErr (List Nat × List (List Nat))) :=
  match cmd with
  | [] => some (.error .ExpectedPrefix)
  | c :: rest =>
    if c ≠ 36 then some (.error .ExpectedPrefix)
    else
      match parseNameLoop rest [] with
      | .error e => some (.error e)
      | .ok (name, rest1) =>
        match parseFieldsLoop rest1 [] with
        | none => none
        | some (.error e) => some (.error e)
        | some (.ok (fields, rest2)) =>
          match rest2 with
          | 42 :: rest3 =>
            match rest3 with
            | [] => some (.error .ExpectedChecksum)
            | [_] => some (.error .ExpectedChecksum)
            | a :: b :: rest4 =>
              match checksum_parse a b with
              | none => some (.error .ChecksumParse)
              | some cs =>
                match rest4 with
                | [] => some (.error .ExpectedSuffix)
                | r :: rest5 =>
                  if r ≠ 13 then some (.error .ExpectedSuffix)
                  else
                    match rest5 with
                    | [] => some (.error .ExpectedSuffix)
                    | n :: rest6 =>
                      if n ≠ 10 then some (.error .ExpectedSuffix)
                      else if rest6 ≠ [] then some (.error .ExpectedEnd)
                      else if cmd.length < 6 then none
                      else
                        let line := (cmd.take (cmd.length - 5)).drop 1
                        if cs ≠ compute_for line then some (.error .WrongChecksum)
                        else some (.ok (name, fields))
          -- the field loop only stops on a peeked `*`, so this is unreachable
          | _ => none

/-! ### Legal frame content -/

/-- A byte that may appear inside a name or field: an actual byte (below 256)
that is none of `$`, `,`, `*`, `\r`, `\n`. -/
def legalByte (c : Nat) : Prop :=
  c < 256 ∧ c ≠ 36 ∧ c ≠ 44 ∧ c ≠ 42 ∧ c ≠ 13 ∧ c ≠ 10

instance (c : Nat) : Decidable (legalByte c) := by
  unfold legalByte; infer_instance

def legalField (f : List Nat) : Prop := ∀ c ∈ f, legalByte c

instance (f : List Nat) : Decidable (legalField f) := by
  unfold legalField; infer_instance

def legalFrame (name : List Nat) (fields : List (List Nat)) : Prop :=
  name ≠ [] ∧ legalField name ∧ ∀ f ∈ fields, legalField f

instance (name : List Nat) (fields : List (List Nat)) :
    Decidable (legalFrame name fields) := by
  unfold legalFrame; infer_instance

/-! ### Round-trip lemmas -/

theorem to_ascii_pair (n : Nat) :
    to_ascii n = [(to_ascii n).getD 0 0, (to_ascii n).getD 1 0] := by
  unfold to_ascii
  split <;> rfl

set_option maxRecDepth 10000 in
theorem checksum_parse_to_ascii : ∀ n < 256,
    checksum_parse ((to_ascii n).getD 0 0) ((to_ascii n).getD 1 0) = some n := by
  decide

theorem compute_for_lt (line : List Nat) (h : ∀ c ∈ line, c < 256) :
    compute_for line < 256 := by
  suffices hgen : ∀ (l : List Nat) (acc : Nat), (∀ c ∈ l, c < 256) → acc < 256 →
      l.foldl Nat.xor acc < 256 by
    exact hgen line 0 h (by norm_num)
  intro l
  induction l with
  | nil => intro acc _ hacc; exact hacc
  | cons c cs ih =>
    intro acc hl hacc
    simp only [List.foldl_cons]
    refine ih _ (fun x hx => hl x (List.mem_cons_of_mem _ hx)) ?_
    have hc : c < 256 := hl c (List.mem_cons_self _ _)
    have : Nat.xor acc c < 2 ^ 8 :=
      Nat.xor_lt_two_pow (by simpa using hacc) (by simpa using hc)
    simpa using this

theorem parseNameLoop_spec (nm : List Nat) :
    ∀ acc c r, (∀ x ∈ nm, x ≠ 44 ∧ x ≠ 42) → acc ++ nm ≠ [] → (c = 44 ∨ c = 42) →
      parseNameLoop (nm ++ c :: r) acc = .ok (acc ++ nm, c :: r) := by
  induction nm with
  | nil =>
    intro acc c r _ hne hc
    have hacc : acc ≠ [] := by simpa using hne
    rcases hc with hc | hc <;> subst hc <;> simp [parseNameLoop, hacc]
  | cons x xs ih =>
    intro acc c r hleg hne hc
    have hx := hleg x (List.mem_cons_self _ _)
    have hx44 : x ≠ 44 := hx.1
    have hx42 : x ≠ 42 := hx.2
    have hstep : parseNameLoop ((x :: xs) ++ c :: r) acc
        = parseNameLoop (xs ++ c :: r) (acc ++ [x]) := by
      simp [parseNameLoop, hx44, hx42]
    rw [hstep]
    have := ih (acc ++ [x]) c r (fun y hy => hleg y (List.mem_cons_of_mem _ hy))
      (by simp) hc
    simpa using this

theorem pushLast_append (acc : List (List Nat)) (g : List Nat) (c : Nat) :
    pushLast (acc ++ [g]) c = some (acc ++ [g ++ [c]]) := by
  induction acc with
  | nil => simp [pushLast]
  | cons f fs ih =>
    rcases hfs : fs ++ [g] with _ | ⟨x, xs⟩
    · exact absurd hfs (by simp)
    · have h1 : pushLast ((f :: fs) ++ [g]) c = (pushLast (fs ++ [g]) c).map
          fun rr => f :: rr := by
        simp only [List.cons_append, hfs]
        rfl
      rw [h1, ih]
      simp

theorem parseFieldsLoop_field (f : List Nat) :
    ∀ rest acc g, (∀ x ∈ f, x ≠ 44 ∧ x ≠ 42) →
      parseFieldsLoop (f ++ rest) (acc ++ [g]) = parseFieldsLoop rest (acc ++ [g ++ f]) := by
  induction f with
  | nil => intro rest acc g _; simp
  | cons x xs ih =>
    intro rest acc g hleg
    have hx := hleg x (List.mem_cons_self _ _)
    have hstep : parseFieldsLoop ((x :: xs) ++ rest) (acc ++ [g])
        = parseFieldsLoop (xs ++ rest) (acc ++ [g ++ [x]]) := by
      simp [parseFieldsLoop, hx.1, hx.2, pushLast_append]
    rw [hstep]
    have := ih rest acc (g ++ [x]) (fun y hy => hleg y (List.mem_cons_of_mem _ hy))
    simpa using this

theorem parseFieldsLoop_complete (fields : List (List Nat)) :
    ∀ acc r, (∀ f ∈ fields, ∀ x ∈ f, x ≠ 44 ∧ x ≠ 42) →
      parseFieldsLoop (encodeFields fields ++ 42 :: r) acc
        = some (.ok (acc ++ fields, 42 :: r)) := by
  induction fields with
  | nil => intro acc r _; simp [encodeFields, parseFieldsLoop]
  | cons f fs ih =>
    intro acc r hleg
    have h1 : parseFieldsLoop (encodeFields (f :: fs) ++ 42 :: r) acc
        = parseFieldsLoop ((f ++ encodeFields fs) ++ 42 :: r) (acc ++ [[]]) := by
      simp [encodeFields, parseFieldsLoop]
    rw [h1]
    have h2 := parseFieldsLoop_field f (encodeFields fs ++ 42 :: r) acc []
      (hleg f (List.mem_cons_self _ _))
    simp only [List.append_assoc] at h2 ⊢
    rw [h2]
    have h3 := ih (acc ++ [f]) r (fun g hg => hleg g (List.mem_cons_of_mem _ hg))
    simp only [List.nil_append, List.append_assoc] at h3 ⊢
    simpa using h3

theorem mem_encodeFields {c : Nat} {fields : List (List Nat)}
    (h : c ∈ encodeFields fields) : c = 44 ∨ ∃ f ∈ fields, c ∈ f := by
  induction fields with
  | nil => simp [encodeFields] at h
  | cons f fs ih =>
    simp only [encodeFields, List.cons_append, List.mem_cons, List.mem_append] at h
    rcases h with h | h | h
    · exact Or.inl h
    · exact Or.inr ⟨f, by simp, h⟩
    · rcases ih h with h | ⟨g, hg, hc⟩
      · exact Or.inl h
      · exact Or.inr ⟨g, by simp [hg], hc⟩

theorem parseNameLoop_serialize (name : List Nat) (fields : List (List Nat))
    (r : List Nat) (hne : name ≠ []) (hnm : ∀ x ∈ name, x ≠ 44 ∧ x ≠ 42) :
    parseNameLoop (name ++ encodeFields fields ++ 42 :: r) []
      = .ok (name, encodeFields fields ++ 42 :: r) := by
  cases fields with
  | nil =>
    have := parseNameLoop_spec name [] 42 r hnm (by simpa using hne) (Or.inr rfl)
    simpa [encodeFields] using this
  | cons f fs =>
    have := parseNameLoop_spec name [] 44 ((f ++ encodeFields fs) ++ 42 :: r) hnm
      (by simpa using hne) (Or.inl rfl)
    simpa [encodeFields] using this

/-- Round-trip: parsing a serialized frame with legal content gives back the
name and fields and passes the checksum verification. -/
theorem parse_serialize (name : List Nat) (fields : List (List Nat))
    (h : legalFrame name fields) :
    parse (serialize name fields) = some (.ok (name, fields)) := by
  obtain ⟨hne, hnm, hfs⟩ := h
  have hnm' : ∀ x ∈ name, x ≠ 44 ∧ x ≠ 42 := fun x hx =>
    ⟨(hnm x hx).2.2.1, (hnm x hx).2.2.2.1⟩
  have hfs' : ∀ f ∈ fields, ∀ x ∈ f, x ≠ 44 ∧ x ≠ 42 := fun f hf x hx =>
    ⟨(hfs f hf x hx).2.2.1, (hfs f hf x hx).2.2.2.1⟩
  have hlt : compute_for (name ++ encodeFields fields) < 256 := by
    refine compute_for_lt _ fun c hc => ?_
    rcases List.mem_append.mp hc with hc | hc
    · exact (hnm c hc).1
    · rcases mem_encodeFields hc with hc | ⟨f, hf, hc⟩
      · omega
      · exact (hfs f hf c hc).1
  have hpair := to_ascii_pair (compute_for (name ++ encodeFields fields))
  have hcs := checksum_parse_to_ascii (compute_for (name ++ encodeFields fields)) hlt
  generalize ha : (to_ascii (compute_for (name ++ encodeFields fields))).getD 0 0 = a at hpair hcs
  generalize hb : (to_ascii (compute_for (name ++ encodeFields fields))).getD 1 0 = b at hpair hcs
  have hser : serialize name fields
      = 36 :: ((name ++ encodeFields fields) ++ 42 :: a :: b :: 13 :: 10 :: []) := by
    simp only [serialize, hpair]
    simp
  rw [hser]
  have hname := parseNameLoop_serialize name fields (a :: b :: 13 :: 10 :: []) hne hnm'
  have hfields := parseFieldsLoop_complete fields [] (a :: b :: 13 :: 10 :: []) hfs'
  simp only [parse, List.append_assoc] at *
  rw [if_neg (by simp)]
  rw [hname]
  simp only []
  rw [hfields]
  simp only [List.nil_append]
  rw [hcs]
  have hlen : (36 :: (name ++ (encodeFields fields ++ 42 :: a :: b :: 13 :: 10 :: []))).length
      = (name ++ encodeFields fields).length + 6 := by
    simp; omega
  rw [hlen]
  have htake : (36 :: (name ++ (encodeFields fields ++ 42 :: a :: b :: 13 :: 10 :: []))).take
      ((name ++ encodeFields fields).length + 6 - 5) = 36 :: (name ++ encodeFields fields) := by
    have h1 : (name ++ encodeFields fields).length + 6 - 5
        = (name ++ encodeFields fields).length + 1 := by omega
    rw [h1, List.take_succ_cons]
    have h2 : name ++ (encodeFields fields ++ 42 :: a :: b :: 13 :: 10 :: [])
        = (name ++ encodeFields fields) ++ 42 :: a :: b :: 13 :: 10 :: [] := by simp
    rw [h2, List.take_left]
  rw [htake]
  simp

/-- C3: for every name and field list made of legal characters, decoding the
encoding returns exactly the original pair, and the emitted checksum passes
the decoder's checksum verification (the parse reaches `.ok` rather than
`WrongChecksum`). -/
theorem serialize_parse_roundtrip (name : List Nat) (fields : List (List Nat))
    (h : legalFrame name fields) :
    parse (serialize name fields) = some (.ok (name, fields)) :=
  parse_serialize name fields h

/-- Witness for C3 at the concrete frame `PMTK185,1`. -/
theorem serialize_parse_roundtrip_witness :
    legalFrame [80, 77, 84, 75, 49, 56, 53] [[49]] ∧
      parse (serialize [80, 77, 84, 75, 49, 56, 53] [[49]])
        = some (.ok ([80, 77, 84, 75, 49, 56, 53], [[49]])) :=
  ⟨by decide, serialize_parse_roundtrip [80, 77, 84, 75, 49, 56, 53] [[49]] (by decide)⟩

/-! ### Totality of `parse` (no panic is reachable) -/

theorem pushLast_isSome (acc : List (List Nat)) (c : Nat) (h : acc ≠ []) :
    ∃ acc2, pushLast acc c = some acc2 ∧ acc2 ≠ [] := by
  induction acc with
  | nil => exact absurd rfl h
  | cons f fs ih =>
    cases fs with
    | nil => exact ⟨[f ++ [c]], rfl, by simp⟩
    | cons g gs =>
      obtain ⟨acc2, hacc2, hne⟩ := ih (by simp)
      exact ⟨f :: acc2, by simp [pushLast, hacc2], by simp⟩

theorem parseFieldsLoop_ne_none (rest : List Nat) :
    ∀ acc, acc ≠ [] → parseFieldsLoop rest acc ≠ none := by
  induction rest with
  | nil => intro acc _; simp [parseFieldsLoop]
  | cons c cs ih =>
    intro acc hacc
    by_cases h42 : c = 42
    · simp [parseFieldsLoop, h42]
    · by_cases h44 : c = 44
      · simpa [parseFieldsLoop, h42, h44] using ih (acc ++ [[]]) (by simp)
      · obtain ⟨acc2, hacc2, hne⟩ := pushLast_isSome acc c hacc
        simpa [parseFieldsLoop, h42, h44, hacc2] using ih acc2 hne

theorem parseNameLoop_shape (rest : List Nat) :
    ∀ acc nm r1, parseNameLoop rest acc = .ok (nm, r1) →
      ∃ d, rest = d ++ r1 ∧ nm = acc ++ d ∧ ∃ c cs, r1 = c :: cs ∧ (c = 44 ∨ c = 42) := by
  induction rest with
  | nil => intro acc nm r1 h; simp [parseNameLoop] at h
  | cons c cs ih =>
    intro acc nm r1 h
    by_cases hc : c = 44 ∨ c = 42
    · by_cases hacc : acc = []
      · simp [parseNameLoop, hc, hacc] at h
      · rw [parseNameLoop, if_pos hc, if_neg hacc] at h
        obtain ⟨h1, h2⟩ := by simpa using h
        exact ⟨[], by simp [h2], by simp [h1], c, cs, h2.symm, hc⟩
    · rw [parseNameLoop, if_neg hc] at h
      obtain ⟨d, hd1, hd2, c2, cs2, hr, hc2⟩ := ih (acc ++ [c]) nm r1 h
      exact ⟨c :: d, by simp [hd1], by simpa using hd2, c2, cs2, hr, hc2⟩

theorem parseFieldsLoop_shape (rest : List Nat) :
    ∀ acc fs r2, parseFieldsLoop rest acc = some (.ok (fs, r2)) →
      ∃ d, rest = d ++ r2 ∧ ∃ cs2, r2 = 42 :: cs2 := by
  induction rest with
  | nil => intro acc fs r2 h; simp [parseFieldsLoop] at h
  | cons c cs ih =>
    intro acc fs r2 h
    by_cases h42 : c = 42
    · subst h42
      simp only [parseFieldsLoop, if_true, eq_self_iff_true, ite_true,
        Option.some.injEq, Except.ok.injEq, Prod.mk.injEq] at h
      exact ⟨[], by simp [← h.2], cs, h.2.symm⟩
    · by_cases h44 : c = 44
      · subst h44
        rw [show parseFieldsLoop (44 :: cs) acc = parseFieldsLoop cs (acc ++ [[]]) from by
          simp [parseFieldsLoop]] at h
        obtain ⟨d, hd, cs2, hr⟩ := ih _ _ _ h
        exact ⟨44 :: d, by simp [hd], cs2, hr⟩
      · rw [show parseFieldsLoop (c :: cs) acc
            = (match pushLast acc c with
               | none => none
               | some acc2 => parseFieldsLoop cs acc2) from by
          simp [parseFieldsLoop, h42, h44]] at h
        cases hpl : pushLast acc c with
        | none => rw [hpl] at h; simp at h
        | some acc2 =>
          rw [hpl] at h
          obtain ⟨d, hd, cs2, hr⟩ := ih _ _ _ h
          exact ⟨c :: d, by simp [hd], cs2, hr⟩

/-- C10: frame decode is total on every input byte sequence: neither the
access to the last accumulated field nor the checksum-verification slice can
panic, so `parse` always returns a value (`some`). -/
theorem parse_total (cmd : List Nat) : (parse cmd).isSome := by
  cases cmd with
  | nil => simp [parse]
  | cons c rest =>
    by_cases hc : c = 36
    · subst hc
      rw [parse]
      rw [if_neg (by simp)]
      cases hname : parseNameLoop rest [] with
      | error e => simp
      | ok nr =>
        obtain ⟨nm, rest1⟩ := nr
        dsimp only
        obtain ⟨d, hd, hnm, c1, cs1, hr1, hc1⟩ := parseNameLoop_shape rest [] nm rest1 hname
        have hfne : parseFieldsLoop rest1 [] ≠ none := by
          rcases hc1 with hc1 | hc1
          · subst hc1
            rw [hr1]
            have h0 := parseFieldsLoop_ne_none cs1 [[]] (by simp)
            simpa [parseFieldsLoop] using h0
          · subst hc1
            rw [hr1]
            simp [parseFieldsLoop]
        obtain ⟨v, hfields⟩ : ∃ v, parseFieldsLoop rest1 [] = some v := by
          cases hpf : parseFieldsLoop rest1 [] with
          | none => exact absurd hpf hfne
          | some v => exact ⟨v, rfl⟩
        rw [hfields]
        cases v with
        | error e => simp
        | ok fr =>
          obtain ⟨fields, rest2⟩ := fr
          obtain ⟨d2, hd2, cs2, hr2⟩ := parseFieldsLoop_shape rest1 [] fields rest2 hfields
          subst hr2
          -- remaining stages are syntax-directed on the shape of cs2
          match cs2 with
          | [] => simp
          | [x] => simp
          | a :: b :: rest4 =>
            cases hcp : checksum_parse a b with
            | none => simp [hcp]
            | some cs =>
              match rest4 with
              | [] => simp [hcp]
              | r :: rest5 =>
                by_cases hr13 : r = 13
                · subst hr13
                  match rest5 with
                  | [] => simp [hcp]
                  | n :: rest6 =>
                    by_cases hn10 : n = 10
                    · subst hn10
                      by_cases hend : rest6 = []
                      · subst hend
                        have hlen : (36 :: rest).length ≥ 6 := by
                          subst hd hd2
                          simp
                          omega
                        simp only [hcp]
                        rw [if_neg (by simp), if_neg (by simp),
                          if_neg (show ¬((36 :: rest).length < 6) by omega)]
                        simp [apply_ite]
                      · simp [hcp, hend]
                    · simp [hcp, hn10]
                · simp [hcp, hr13]
    · rw [parse]
      rw [if_pos hc]
      simp

/-! ### Byte pipeline (`read_cmd_raw` in `src/lib.rs`) -/

/-- The per-byte loop of `read_cmd_raw`: accumulate bytes into `cmd`; a `$`
while `cmd` is nonempty resyncs (discarding the partial frame, and leaving
`last_is_carriage_return` untouched, as the Rust loop does); a `\n`
immediately after a `\r` closes the frame.  `none` models exhausting the
input, which in the Rust code ends as a `ReadTimeout`. -/
def readCmdLoop : List Nat → List Nat → Bool → Option (List Nat × List Nat)
  | [], _, _ => none
  | b :: bs, cmd, lastCR =>
    if b = 36 ∧ cmd ≠ [] then readCmdLoop bs [36] lastCR
    else if b = 10 ∧ lastCR = true then some (cmd ++ [10], bs)
    else if b = 13 then readCmdLoop bs (cmd ++ [13]) true
    else readCmdLoop bs (cmd ++ [b]) false

/-- Chained absence of a `\r\n` pair: starting from carriage-return state
`lastCR`, no byte 10 ever directly follows a byte 13 (or the initial state). -/
def noCrLf : Bool → List Nat → Prop
  | _, [] => True
  | lastCR, b :: bs => (lastCR = true → b ≠ 10) ∧ noCrLf (b == 13) bs

instance instDecNoCrLf : ∀ (lastCR : Bool) (l : List Nat), Decidable (noCrLf lastCR l)
  | _, [] => .isTrue trivial
  | lastCR, b :: bs =>
    haveI : Decidable (noCrLf (b == 13) bs) := instDecNoCrLf _ _
    by unfold noCrLf; infer_instance

theorem hexDigitU_ge (d : Nat) : 48 ≤ hexDigitU d := by
  unfold hexDigitU; split <;> omega

theorem to_ascii_ge (n : Nat) : ∀ c ∈ to_ascii n, 48 ≤ c := by
  intro c hc
  unfold to_ascii at hc
  split at hc <;>
    simp only [List.mem_cons, List.not_mem_nil, or_false] at hc <;>
    rcases hc with hc | hc <;> subst hc <;>
    first
      | exact hexDigitU_ge _
      | omega

/-- Bytes of a legal frame body (everything between `$` and `\r\n`) are none
of `$`, `\r`, `\n`. -/
theorem frame_body_bytes (name : List Nat) (fields : List (List Nat))
    (h : legalFrame name fields) :
    ∀ c ∈ (name ++ encodeFields fields) ++ 42 :: to_ascii (compute_for (name ++ encodeFields fields)),
      c ≠ 36 ∧ c ≠ 13 ∧ c ≠ 10 := by
  obtain ⟨_, hnm, hfs⟩ := h
  intro c hc
  simp only [List.mem_append, List.mem_cons] at hc
  rcases hc with (hc | hc) | hc | hc
  · exact ⟨(hnm c hc).2.1, (hnm c hc).2.2.2.2.1, (hnm c hc).2.2.2.2.2⟩
  · rcases mem_encodeFields hc with hc | ⟨f, hf, hc⟩
    · omega
    · exact ⟨(hfs f hf c hc).2.1, (hfs f hf c hc).2.2.2.2.1, (hfs f hf c hc).2.2.2.2.2⟩
  · omega
  · have := to_ascii_ge _ c hc; omega

/-- Processing the body of a frame from the just-resynced state
`cmd = [36]`: every body byte is pushed and the closing `\r\n` hands the
whole frame back, leaving the rest of the input unconsumed. -/
theorem readCmdLoop_body (mid : List Nat) :
    ∀ cmd lastCR tl, (∀ m ∈ mid, m ≠ 36 ∧ m ≠ 13 ∧ m ≠ 10) →
      readCmdLoop (mid ++ 13 :: 10 :: tl) cmd lastCR = some (cmd ++ mid ++ [13, 10], tl) := by
  induction mid with
  | nil =>
    intro cmd lastCR tl _
    simp [readCmdLoop]
  | cons m ms ih =>
    intro cmd lastCR tl hleg
    have hm := hleg m (List.mem_cons_self _ _)
    have hstep : readCmdLoop ((m :: ms) ++ 13 :: 10 :: tl) cmd lastCR
        = readCmdLoop (ms ++ 13 :: 10 :: tl) (cmd ++ [m]) false := by
      simp [readCmdLoop, hm.1, hm.2.1, hm.2.2]
    rw [hstep, ih (cmd ++ [m]) false tl (fun x hx => hleg x (List.mem_cons_of_mem _ hx))]
    simp

/-- Skipping junk that contains no `$` and no chained `\r\n` pair: no
termination can fire inside the junk, and the `$` of the following frame
leaves the loop in state `cmd = [36]` (by resync when something accumulated,
by a plain push otherwise). -/
theorem readCmdLoop_junk_no_dollar (junk : List Nat) :
    ∀ cmd lastCR tl, 36 ∉ junk → noCrLf lastCR junk →
      ∃ b2, readCmdLoop (junk ++ 36 :: tl) cmd lastCR = readCmdLoop tl [36] b2 := by
  induction junk with
  | nil =>
    intro cmd lastCR tl _ _
    by_cases hcmd : cmd = []
    · subst hcmd
      exact ⟨false, by simp [readCmdLoop]⟩
    · exact ⟨lastCR, by simp [readCmdLoop, hcmd]⟩
  | cons b bs ih =>
    intro cmd lastCR tl hd hcr
    obtain ⟨h10, hrest⟩ := hcr
    have hb36 : b ≠ 36 := fun h => hd (by simp [h])
    have hd' : 36 ∉ bs := fun h => hd (List.mem_cons_of_mem _ h)
    by_cases hb13 : b = 13
    · subst hb13
      have hstep : readCmdLoop ((13 :: bs) ++ 36 :: tl) cmd lastCR
          = readCmdLoop (bs ++ 36 :: tl) (cmd ++ [13]) true := by
        simp [readCmdLoop]
      obtain ⟨b2, hb2⟩ := ih (cmd ++ [13]) true tl hd' (by simpa using hrest)
      exact ⟨b2, by rw [hstep, hb2]⟩
    · have hnoterm : ¬(b = 10 ∧ lastCR = true) := by
        rintro ⟨hb10, hlcr⟩
        exact h10 hlcr hb10
      have hstep : readCmdLoop ((b :: bs) ++ 36 :: tl) cmd lastCR
          = readCmdLoop (bs ++ 36 :: tl) (cmd ++ [b]) false := by
        simp only [List.cons_append, readCmdLoop]
        rw [if_neg (by simp [hb36]), if_neg hnoterm, if_neg hb13]
        rfl
      have hrestF : noCrLf false bs := by
        rwa [show (b == 13) = false from beq_eq_false_iff_ne.mpr hb13] at hrest
      obtain ⟨b2, hb2⟩ := ih (cmd ++ [b]) false tl hd' hrestF
      exact ⟨b2, by rw [hstep, hb2]⟩

/-- Skipping junk that contains no `\r` at all (for instance a partial frame
cut off before its carriage return): the carriage-return flag stays `false`,
so nothing can terminate inside the junk, and the `$` of the following frame
resyncs to `cmd = [36]`. -/
theorem readCmdLoop_junk_no_cr (junk : List Nat) :
    ∀ cmd tl, 13 ∉ junk →
      readCmdLoop (junk ++ 36 :: tl) cmd false = readCmdLoop tl [36] false := by
  induction junk with
  | nil =>
    intro cmd tl _
    by_cases hcmd : cmd = []
    · subst hcmd; simp [readCmdLoop]
    · simp [readCmdLoop, hcmd]
  | cons b bs ih =>
    intro cmd tl hd
    have hb13 : b ≠ 13 := fun h => hd (by simp [h])
    have hd' : 13 ∉ bs := fun h => hd (List.mem_cons_of_mem _ h)
    by_cases hb36 : b = 36
    · subst hb36
      by_cases hcmd : cmd = []
      · subst hcmd
        have hstep : readCmdLoop ((36 :: bs) ++ 36 :: tl) [] false
            = readCmdLoop (bs ++ 36 :: tl) [36] false := by
          simp [readCmdLoop]
        rw [hstep, ih _ _ hd']
      · have hstep : readCmdLoop ((36 :: bs) ++ 36 :: tl) cmd false
            = readCmdLoop (bs ++ 36 :: tl) [36] false := by
          simp [readCmdLoop, hcmd]
        rw [hstep, ih _ _ hd']
    · have hstep : readCmdLoop ((b :: bs) ++ 36 :: tl) cmd false
          = readCmdLoop (bs ++ 36 :: tl) (cmd ++ [b]) false := by
        simp only [List.cons_append, readCmdLoop]
        rw [if_neg (by simp [hb36]), if_neg (by simp), if_neg hb13]
        rfl
      rw [hstep, ih _ _ hd']

/-- Reading a legal serialized frame from the state `cmd = [36]`, whatever
the carriage-return flag is, returns the whole frame. -/
theorem readCmdLoop_frame (name : List Nat) (fields : List (List Nat))
    (h : legalFrame name fields) (b : Bool) (tl : List Nat) :
    readCmdLoop ((serialize name fields).drop 1 ++ tl) [36] b
      = some (serialize name fields, tl) := by
  have hser : serialize name fields
      = 36 :: (((name ++ encodeFields fields)
          ++ 42 :: to_ascii (compute_for (name ++ encodeFields fields))) ++ [13, 10]) := by
    simp [serialize]
  have hbody := readCmdLoop_body
    ((name ++ encodeFields fields)
      ++ 42 :: to_ascii (compute_for (name ++ encodeFields fields)))
    [36] b tl (frame_body_bytes name fields h)
  rw [hser]
  simpa using hbody

/-! ### Transactor state model (`src/lib.rs`)

The `Gps` struct owns an rx consumer, a tx writer and a delay source.  We
model them by explicit state: `input` is the byte stream still to be read
from the rx ring, `written` accumulates every byte pushed to tx, and
`delays` records each `delay_us` call.  The tx of the model is always ready
(no `WouldBlock`, no transport error), so the write-timeout and `Transmit`
paths never fire and are not modelled; an exhausted `input` models the read
timeout. -/

/-- Error enum of `locus::logged_point` (`logged_point.rs`). -/
inductive LoggedPointErr where
  | InvalidFieldCount
  | InvalidFieldLength
  | WrongChecksum
  | HexDecode
  deriving DecidableEq, Repr

/-- `Error<TxError>` of `lib.rs` (with the unreachable `Transmit` variant of
the error-free modelled transport omitted). -/
inductive GpsError where
  | Protocol
  | GpsSaysInvalidCommand
  | GpsSaysUnsupportedCommand
  | GpsSaysActionFailed
  | BootFailed
  | ReadTimeout
  | WriteTimeout
  | Parse (e : ParseErr)
  | ParseLoggedPoint (e : LoggedPointErr)
  deriving DecidableEq, Repr

instance {e a : Type} [DecidableEq e] [DecidableEq a] : DecidableEq (Except e a)
  | .error x, .error y => if h : x = y then .isTrue (by rw [h]) else .isFalse (by simp [h])
  | .error _, .ok _ => .isFalse (by simp)
  | .ok _, .error _ => .isFalse (by simp)
  | .ok x, .ok y => if h : x = y then .isTrue (by rw [h]) else .isFalse (by simp [h])

def MAX_CMD_TRIES : Nat := 5
def MAX_CMD_TRIES_WITHOUT_NMEA_DISABLED : Nat := 20
def DELAY_BEFORE_RETRY_US : Nat := 80000

structure GpsState where
  disabled_nmea_output : Bool
  input : List Nat
  written : List Nat
  delays : List Nat
  deriving DecidableEq, Repr

def delay_us (us : Nat) (s : GpsState) : GpsState :=
  { s with delays := s.delays ++ [us] }

/-- Total wrapper of `parse`: by `parse_isSome` below the default branch is
never taken. -/
def parseT (cmd : List Nat) : Except ParseErr (List Nat × List (List Nat)) :=
  (parse cmd).getD (.error .ExpectedPrefix)

/-- `read_cmd_raw`: pull bytes until a full frame is closed (resyncing on
`$`), then hand the frame to the codec.  Input exhaustion is `ReadTimeout`;
parse failures surface as `Error::Parse`. -/
def read_cmd_raw (s : GpsState) :
    GpsState × Except GpsError (List Nat × List (List Nat)) :=
  match readCmdLoop s.input [] false with
  | none => ({ s with input := [] }, .error .ReadTimeout)
  | some (frame, rest) =>
    ({ s with input := rest },
     match parseT frame with
     | .error e => .error (.Parse e)
     | .ok nf => .ok nf)

/-- `write_cmd_raw`: serialize and push every byte to tx (always ready in
the model). -/
def write_cmd_raw (name : List Nat) (fields : List (List Nat)) (s : GpsState) :
    GpsState × Except GpsError Unit :=
  ({ s with written := s.written ++ serialize name fields }, .ok ())

/-- The validation part of `read_reply_raw`: wrong name and too few fields
are both `Protocol`. -/
def reply_checks (name : List Nat) (min_fields : Nat)
    (frame : List Nat × List (List Nat)) : Except GpsError (List (List Nat)) :=
  if name ≠ frame.1 then .error .Protocol
  else if frame.2.length < min_fields then .error .Protocol
  else .ok frame.2

def read_reply_raw (name : List Nat) (min_fields : Nat) (s : GpsState) :
    GpsState × Except GpsError (List (List Nat)) :=
  match read_cmd_raw s with
  | (s1, .error e) => (s1, .error e)
  | (s1, .ok frame) => (s1, reply_checks name min_fields frame)

/-- `b"PMTK001"`. -/
def pmtk001 : List Nat := [80, 77, 84, 75, 48, 48, 49]

/-- The status decoding of `read_pmtk_ack_raw` after the `PMTK001` reply has
been read: one-character status, echoed number must match, status `'0'`
(48) through `'3'` (51) map to the device-reported results. -/
def pmtk_ack_checks (for_num : List Nat) (fields : List (List Nat)) :
    Except GpsError Unit :=
  let got_for := fields.getD 0 []
  let got_status := fields.getD 1 []
  if got_status.length ≠ 1 then .error .Protocol
  else if for_num ≠ got_for then .error .Protocol
  else
    match got_status.getD 0 0 with
    | 48 => .error .GpsSaysInvalidCommand
    | 49 => .error .GpsSaysUnsupportedCommand
    | 50 => .error .GpsSaysActionFailed
    | 51 => .ok ()
    | _ => .error .Protocol

/-- `read_pmtk_ack_raw` applied to one already-read frame: the
`read_reply_raw(b"PMTK001", 2)` validation followed by the status checks. -/
def ack_of_frame (for_num : List Nat) (frame : List Nat × List (List Nat)) :
    Except GpsError Unit :=
  match reply_checks pmtk001 2 frame with
  | .error e => .error e
  | .ok fields => pmtk_ack_checks for_num fields

def read_pmtk_ack_raw (for_num : List Nat) (s : GpsState) :
    GpsState × Except GpsError Unit :=
  match read_cmd_raw s with
  | (s1, .error e) => (s1, .error e)
  | (s1, .ok frame) => (s1, ack_of_frame for_num frame)

/-- `with_retries`, written with the decreasing counter
`remaining = max_tries + 1 - tries`, so that the Rust exit test
`tries > max_tries` is `remaining = 0`.  The result keeps the `tries`
count, as the Rust `Result<(usize, T), (usize, Error)>` does.  `delay` is
called between attempts (Rust: `self.delay_us(DELAY_BEFORE_RETRY_US)`).
Rust asserts `max_tries > 0`; every call site passes at least 5. -/
def withRetriesGo {σ ε α : Type} (delay : σ → σ) (op : σ → σ × Except ε α) :
    Nat → Nat → σ → σ × Except (Nat × ε) (Nat × α)
  | tries, 0, s =>
    match op s with
    | (s1, .ok v) => (s1, .ok (tries, v))
    | (s1, .error e) => (s1, .error (tries, e))
  | tries, r + 1, s =>
    match op s with
    | (s1, .ok v) => (s1, .ok (tries, v))
    | (s1, .error _) => withRetriesGo delay op (tries + 1) r (delay s1)

def with_retries {σ ε α : Type} (max_tries : Nat) (delay : σ → σ)
    (op : σ → σ × Except ε α) (s : σ) : σ × Except (Nat × ε) (Nat × α) :=
  withRetriesGo delay op 1 max_tries s

/-- `name = *b"PMTK\0\0\0"; name[4..].clone_from_slice(num)`. -/
def pmtk_name (num : List Nat) : List Nat := [80, 77, 84, 75] ++ num

/-- `send_mtk_cmd_without_disabling_nmea`: up to `max_tries` retried
attempts of `write_cmd_raw` then `read_pmtk_ack_raw`; the caller strips the
tries count. -/
def send_mtk_cmd_without_disabling_nmea (num : List Nat)
    (fields : List (List Nat)) (max_tries : Nat) (s : GpsState) :
    GpsState × Except GpsError Unit :=
  let r := with_retries max_tries (delay_us DELAY_BEFORE_RETRY_US)
    (fun s0 =>
      match write_cmd_raw (pmtk_name num) fields s0 with
      | (s1, .error e) => (s1, .error e)
      | (s1, .ok _) => read_pmtk_ack_raw num s1) s
  (r.1, (r.2.map Prod.snd).mapError Prod.snd)

/-- `ensure_nmea_output_disabled`: no-op once disabled; otherwise send
`PMTK314` with nineteen `"0"` fields under the elevated retry budget and
record success in the session flag. -/
def ensure_nmea_output_disabled (s : GpsState) : GpsState × Except GpsError Unit :=
  if s.disabled_nmea_output then (s, .ok ())
  else
    match send_mtk_cmd_without_disabling_nmea [51, 49, 52] (List.replicate 19 [48])
        MAX_CMD_TRIES_WITHOUT_NMEA_DISABLED s with
    | (s1, .ok _) => ({ s1 with disabled_nmea_output := true }, .ok ())
    | (s1, .error e) => (s1, .error e)

/-- `send_mtk_cmd`: disable unsolicited output, then the standard retried
write-and-ack. -/
def send_mtk_cmd (num : List Nat) (fields : List (List Nat)) (s : GpsState) :
    GpsState × Except GpsError Unit :=
  match ensure_nmea_output_disabled s with
  | (s1, .error e) => (s1, .error e)
  | (s1, .ok _) => send_mtk_cmd_without_disabling_nmea num fields MAX_CMD_TRIES s1

/-- `send_mtk_cmd_for_reply`: same retry structure, but a typed reply
(name `PMTK` ++ `reply_num`, at least `reply_min_fields` fields) instead of
an ack. -/
def send_mtk_cmd_for_reply (num : List Nat) (fields : List (List Nat))
    (reply_num : List Nat) (reply_min_fields : Nat) (s : GpsState) :
    GpsState × Except GpsError (List (List Nat)) :=
  match ensure_nmea_output_disabled s with
  | (s1, .error e) => (s1, .error e)
  | (s1, .ok _) =>
    let r := with_retries MAX_CMD_TRIES (delay_us DELAY_BEFORE_RETRY_US)
      (fun s0 =>
        match write_cmd_raw (pmtk_name num) fields s0 with
        | (s2, .error e) => (s2, .error e)
        | (s2, .ok _) => read_reply_raw (pmtk_name reply_num) reply_min_fields s2) s1
    (r.1, (r.2.map Prod.snd).mapError Prod.snd)

/-! ### Value objects and field parsers -/

/-- `IntegerPercent` (`integer_percent.rs`): a `u8` in `0..=100`. -/
structure IntegerPercent where
  val : Nat
  deriving DecidableEq, Repr

/-- `IntegerPercent::new` asserts `val <= 100`; `none` is that panic. -/
def IntegerPercent.new (val : Nat) : Option IntegerPercent :=
  if val ≤ 100 then some ⟨val⟩ else none

/-- Decimal parse of an unsigned integer as `lexical_core::parse` does on
the digit strings the device sends: nonempty, every byte an ASCII digit. -/
def parse_decimal (val : List Nat) : Option Nat :=
  if val ≠ [] ∧ val.all (fun c => 48 ≤ c ∧ c ≤ 57) then
    some (val.foldl (fun a c => 10 * a + (c - 48)) 0)
  else none

/-- `integer_field`: parse as `u32` (overflow is a parse error). -/
def integer_field (val : List Nat) : Except ParseErr Nat :=
  match parse_decimal val with
  | some v => if v < 2 ^ 32 then .ok v else .error .ParseField
  | none => .error .ParseField

/-- `integer_percent_field`: parse as `u8`, reject values above 100.  The
`IntegerPercent::new` assert cannot fire behind the guard. -/
def integer_percent_field (val : List Nat) : Except ParseErr IntegerPercent :=
  match parse_decimal val with
  | some v =>
    if v < 2 ^ 8 then
      if 100 < v then .error .ParseField else .ok ⟨v⟩
    else .error .ParseField
  | none => .error .ParseField

/-- `bool_field`: equality against the caller-supplied truthy and falsy
byte strings. -/
def bool_field (val truthy falsy : List Nat) : Except ParseErr Bool :=
  if val = truthy then .ok true
  else if val = falsy then .ok false
  else .error .ParseField

/-- `LoggerStatus` (`locus/status.rs`). -/
structure LoggerStatus where
  interval : Nat
  is_on : Bool
  record_count : Nat
  percent_full : IntegerPercent
  deriving DecidableEq, Repr

/-- `logger_status`: `send_mtk_cmd_for_reply(b"183", [], b"LOG", 10)`, then
build the status from fields 4 (interval), 7 (is_on, `"0"` truthy and `"1"`
falsy), 8 (record count) and 9 (percent full).  Indexing is safe behind
`min_fields = 10`. -/
def logger_status (s : GpsState) : GpsState × Except GpsError LoggerStatus :=
  match send_mtk_cmd_for_reply [49, 56, 51] [] [76, 79, 71] 10 s with
  | (s1, .error e) => (s1, .error e)
  | (s1, .ok fields) =>
    (s1,
     match integer_field (fields.getD 4 []) with
     | .error e => .error (.Parse e)
     | .ok interval =>
       match bool_field (fields.getD 7 []) [48] [49] with
       | .error e => .error (.Parse e)
       | .ok is_on =>
         match integer_field (fields.getD 8 []) with
         | .error e => .error (.Parse e)
         | .ok record_count =>
           match integer_percent_field (fields.getD 9 []) with
           | .error e => .error (.Parse e)
           | .ok percent_full => .ok ⟨interval, is_on, record_count, percent_full⟩)

/-! ### Reading one frame through junk (claim C4) -/

theorem serialize_head (name : List Nat) (fields : List (List Nat)) :
    serialize name fields = 36 :: (serialize name fields).drop 1 := by
  simp [serialize]

/-- Reading one frame after junk: if the junk ahead of a legal frame either
(a) contains no `$` and no chained `\r\n` pair, or (b) contains no `\r` at
all, then `read_cmd_raw` consumes the junk and the frame and returns the
frame's parse. -/
theorem read_cmd_raw_of_junk (name : List Nat) (fields : List (List Nat))
    (junk rest : List Nat) (s : GpsState) (h : legalFrame name fields)
    (hin : s.input = junk ++ serialize name fields ++ rest)
    (hjunk : (36 ∉ junk ∧ noCrLf false junk) ∨ 13 ∉ junk) :
    read_cmd_raw s = ({ s with input := rest }, .ok (name, fields)) := by
  have hsplit : s.input = junk ++ 36 :: ((serialize name fields).drop 1 ++ rest) := by
    rw [hin]
    conv_lhs => rw [serialize_head name fields]
    simp
  have hloop : readCmdLoop s.input [] false = some (serialize name fields, rest) := by
    rw [hsplit]
    rcases hjunk with ⟨h36, hcr⟩ | h13
    · obtain ⟨b2, hb2⟩ := readCmdLoop_junk_no_dollar junk [] false
        ((serialize name fields).drop 1 ++ rest) h36 hcr
      rw [hb2, readCmdLoop_frame name fields h b2 rest]
    · rw [readCmdLoop_junk_no_cr junk [] ((serialize name fields).drop 1 ++ rest) h13,
        readCmdLoop_frame name fields h false rest]
  rw [read_cmd_raw, hloop]
  simp only [parseT, parse_serialize name fields h, Option.getD_some]

/-- C4 counterexample: the input `\r\n` + a valid frame, whose prefix
`[13, 10]` contains no `$`, makes `read_cmd_raw` close the garbage frame
`[13, 10]` at once and fail with `Parse ExpectedPrefix` instead of yielding
the parsed valid frame. -/
theorem read_cmd_raw_crlf_cex :
    (36 ∉ ([13, 10] : List Nat)) ∧
    legalFrame [80, 77, 84, 75, 49, 56, 51] [] ∧
    read_cmd_raw ⟨true, [13, 10] ++ serialize [80, 77, 84, 75, 49, 56, 51] [], [], []⟩
      = (⟨true, serialize [80, 77, 84, 75, 49, 56, 51] [], [], []⟩,
         .error (.Parse .ExpectedPrefix)) := by
  refine ⟨by decide, by decide, ?_⟩
  decide

/-- C4 amended: a prefix with no `$` must additionally contain no `\r\n`
pair for the following valid frame to be read (part one); a partial frame
cut off before its `\r` — with any bytes, `$` included — is discarded by
resync and the following valid frame is read (part two). -/
theorem read_cmd_raw_resync (name : List Nat) (fields : List (List Nat))
    (junk rest : List Nat) (s : GpsState) (h : legalFrame name fields)
    (hin : s.input = junk ++ serialize name fields ++ rest) :
    ((36 ∉ junk ∧ noCrLf false junk) →
        read_cmd_raw s = ({ s with input := rest }, .ok (name, fields)))
    ∧ (13 ∉ junk →
        read_cmd_raw s = ({ s with input := rest }, .ok (name, fields))) :=
  ⟨fun hj => read_cmd_raw_of_junk name fields junk rest s h hin (Or.inl hj),
   fun hj => read_cmd_raw_of_junk name fields junk rest s h hin (Or.inr hj)⟩

/-- Witness for C4 (amended): a noise prefix `[88, 13]` before
`$PMTK183*38\r\n`, and a partial frame `[36, 80, 10]` before the same
frame. -/
theorem read_cmd_raw_resync_witness :
    ((36 ∉ ([88, 13] : List Nat)) ∧ noCrLf false [88, 13]
      ∧ legalFrame [80, 77, 84, 75, 49, 56, 51] []
      ∧ read_cmd_raw ⟨true, [88, 13] ++ serialize [80, 77, 84, 75, 49, 56, 51] [] ++ [99], [], []⟩
          = (⟨true, [99], [], []⟩, .ok ([80, 77, 84, 75, 49, 56, 51], [])))
    ∧ ((13 ∉ ([36, 80, 10] : List Nat))
      ∧ read_cmd_raw ⟨true, [36, 80, 10] ++ serialize [80, 77, 84, 75, 49, 56, 51] [] ++ [99], [], []⟩
          = (⟨true, [99], [], []⟩, .ok ([80, 77, 84, 75, 49, 56, 51], []))) :=
  ⟨⟨by decide, by decide, by decide,
    (read_cmd_raw_resync [80, 77, 84, 75, 49, 56, 51] [] [88, 13] [99] _ (by decide) rfl).1
      ⟨by decide, by decide⟩⟩,
   ⟨by decide,
    (read_cmd_raw_resync [80, 77, 84, 75, 49, 56, 51] [] [36, 80, 10] [99] _ (by decide) rfl).2
      (by decide)⟩⟩

/-! ### The retry contract of `send_mtk_cmd` (claim C1) -/

/-- `n` copies of a byte string, concatenated. -/
def repBytes : Nat → List Nat → List Nat
  | 0, _ => []
  | n + 1, l => l ++ repBytes n l

/-- One failing attempt of the write-then-ack pair: the mock reply
`[88, 13, 10]` (`X\r\n`) closes as a frame whose parse fails, a retryable
`Parse ExpectedPrefix`.  The command frame is written regardless. -/
theorem mtk_attempt_fail (num : List Nat) (fields : List (List Nat))
    (s0 : GpsState) (rest : List Nat) (hin : s0.input = [88, 13, 10] ++ rest) :
    (match write_cmd_raw (pmtk_name num) fields s0 with
     | (s1, .error e) => (s1, .error e)
     | (s1, .ok _) => read_pmtk_ack_raw num s1)
      = ({ s0 with
            input := rest
            written := s0.written ++ serialize (pmtk_name num) fields },
         .error (.Parse .ExpectedPrefix)) := by
  have hl : readCmdLoop s0.input [] false = some ([88, 13, 10], rest) := by
    rw [hin]; simp [readCmdLoop]
  simp only [write_cmd_raw, read_pmtk_ack_raw, read_cmd_raw]
  rw [show ({ s0 with written := s0.written ++ serialize (pmtk_name num) fields } :
      GpsState).input = s0.input from rfl, hl]
  simp [parseT, parse, parseNameLoop]

/-- One succeeding attempt: the mock reply is a well-formed
`PMTK001,<num>,3` ack frame. -/
theorem mtk_attempt_ok (num : List Nat) (fields : List (List Nat))
    (hnum : legalField num) (s0 : GpsState) (rest : List Nat)
    (hin : s0.input = serialize pmtk001 [num, [51]] ++ rest) :
    (match write_cmd_raw (pmtk_name num) fields s0 with
     | (s1, .error e) => (s1, .error e)
     | (s1, .ok _) => read_pmtk_ack_raw num s1)
      = ({ s0 with
            input := rest
            written := s0.written ++ serialize (pmtk_name num) fields }, .ok ()) := by
  have hleg : legalFrame pmtk001 [num, [51]] := by
    refine ⟨by decide, by decide, ?_⟩
    intro f hf
    simp only [List.mem_cons, List.not_mem_nil, or_false] at hf
    rcases hf with hf | hf
    · subst hf; exact hnum
    · subst hf; decide
  have hread := read_cmd_raw_of_junk pmtk001 [num, [51]] [] rest
    { s0 with written := s0.written ++ serialize (pmtk_name num) fields } hleg
    (by simpa using hin) (Or.inr (by simp))
  simp only [write_cmd_raw, read_pmtk_ack_raw]
  rw [hread]
  simp [ack_of_frame, reply_checks, pmtk_ack_checks]

/-- Unrolling the retry loop over `k` failing mock replies followed by a
good ack: each attempt writes the command frame once, each failure delays
`DELAY_BEFORE_RETRY_US` once, and the `tries` count advances by `k`. -/
theorem mtk_retry_go_ok (num : List Nat) (fields : List (List Nat))
    (hnum : legalField num) :
    ∀ (k r : Nat) (tries : Nat) (rest : List Nat) (s0 : GpsState), k ≤ r →
      s0.input = repBytes k [88, 13, 10] ++ serialize pmtk001 [num, [51]] ++ rest →
      withRetriesGo (delay_us DELAY_BEFORE_RETRY_US)
        (fun s2 =>
          match write_cmd_raw (pmtk_name num) fields s2 with
          | (s1, .error e) => (s1, .error e)
          | (s1, .ok _) => read_pmtk_ack_raw num s1) tries r s0
        = ({ s0 with
              input := rest
              written := s0.written ++ repBytes (k + 1) (serialize (pmtk_name num) fields)
              delays := s0.delays ++ List.replicate k DELAY_BEFORE_RETRY_US },
           .ok (tries + k, ())) := by
  intro k
  induction k with
  | zero =>
    intro r tries rest s0 _ hin
    simp only [repBytes, List.nil_append] at hin
    have hok := mtk_attempt_ok num fields hnum s0 rest hin
    cases r <;>
      simp only [withRetriesGo] <;> rw [hok] <;>
      simp [repBytes]
  | succ k ih =>
    intro r tries rest s0 hkr hin
    cases r with
    | zero => omega
    | succ r' =>
      simp only [repBytes, List.append_assoc] at hin
      have hfail := mtk_attempt_fail num fields s0
        (repBytes k [88, 13, 10] ++ (serialize pmtk001 [num, [51]] ++ rest)) hin
      simp only [withRetriesGo]
      rw [hfail]
      dsimp only
      have := ih r' (tries + 1)
        rest (delay_us DELAY_BEFORE_RETRY_US
          { s0 with
            input := repBytes k [88, 13, 10] ++ (serialize pmtk001 [num, [51]] ++ rest)
            written := s0.written ++ serialize (pmtk_name num) fields })
        (by omega) (by simp [delay_us])
      rw [this]
      refine Prod.ext ?_ ?_
      · simp [delay_us, repBytes, List.replicate_succ]
      · simp; omega

/-- Unrolling the retry loop over nothing but failing mock replies: the
loop stops on the failure at `remaining = 0`, having written `r + 1`
command frames and slept `r` times. -/
theorem mtk_retry_go_fail (num : List Nat) (fields : List (List Nat)) :
    ∀ (r : Nat) (tries : Nat) (rest : List Nat) (s0 : GpsState),
      s0.input = repBytes (r + 1) [88, 13, 10] ++ rest →
      withRetriesGo (delay_us DELAY_BEFORE_RETRY_US)
        (fun s2 =>
          match write_cmd_raw (pmtk_name num) fields s2 with
          | (s1, .error e) => (s1, .error e)
          | (s1, .ok _) => read_pmtk_ack_raw num s1) tries r s0
        = ({ s0 with
              input := rest
              written := s0.written ++ repBytes (r + 1) (serialize (pmtk_name num) fields)
              delays := s0.delays ++ List.replicate r DELAY_BEFORE_RETRY_US },
           .error (tries + r, .Parse .ExpectedPrefix)) := by
  intro r
  induction r with
  | zero =>
    intro tries rest s0 hin
    simp only [repBytes, List.append_nil, List.nil_append] at hin
    have hfail := mtk_attempt_fail num fields s0 rest (by simpa using hin)
    simp only [withRetriesGo]
    rw [hfail]
    simp [repBytes]
  | succ r' ih =>
    intro tries rest s0 hin
    simp only [repBytes, List.append_assoc] at hin
    have hfail := mtk_attempt_fail num fields s0
      (repBytes (r' + 1) [88, 13, 10] ++ rest) (by
        simpa [repBytes, List.append_assoc] using hin)
    simp only [withRetriesGo]
    rw [hfail]
    dsimp only
    have hrec := ih (tries + 1) rest
      (delay_us DELAY_BEFORE_RETRY_US
        { s0 with
          input := repBytes (r' + 1) [88, 13, 10] ++ rest
          written := s0.written ++ serialize (pmtk_name num) fields })
      (by simp [delay_us])
    rw [hrec]
    refine Prod.ext ?_ ?_
    · simp [delay_us, repBytes, List.replicate_succ]
    · simp; omega

/-- C1: the retry bound of `send_mtk_cmd`.  For a mock device whose first
`N - 1` replies are garbage (each attempt writes the command and reads one
reply) and whose `N`-th reply is a well-formed ack, the command succeeds
when `N ≤ MAX_CMD_TRIES`, having made exactly `N` write-then-ack attempts
with `DELAY_BEFORE_RETRY_US` slept between consecutive attempts; when every
reply is garbage the command fails after exactly `MAX_CMD_TRIES + 1`
attempts (with `MAX_CMD_TRIES` sleeps), surfacing the retryable error. -/
theorem send_mtk_cmd_retry_contract (num : List Nat) (fields : List (List Nat))
    (hnum : legalField num) :
    (∀ (N : Nat) (s : GpsState) (rest : List Nat), 1 ≤ N → N ≤ MAX_CMD_TRIES →
      s.disabled_nmea_output = true →
      s.input = repBytes (N - 1) [88, 13, 10] ++ serialize pmtk001 [num, [51]] ++ rest →
      send_mtk_cmd num fields s
        = ({ s with
              input := rest
              written := s.written ++ repBytes N (serialize (pmtk_name num) fields)
              delays := s.delays ++ List.replicate (N - 1) DELAY_BEFORE_RETRY_US },
           .ok ()))
    ∧ (∀ (s : GpsState) (rest : List Nat),
      s.disabled_nmea_output = true →
      s.input = repBytes (MAX_CMD_TRIES + 1) [88, 13, 10] ++ rest →
      send_mtk_cmd num fields s
        = ({ s with
              input := rest
              written := s.written ++ repBytes (MAX_CMD_TRIES + 1) (serialize (pmtk_name num) fields)
              delays := s.delays ++ List.replicate MAX_CMD_TRIES DELAY_BEFORE_RETRY_US },
           .error (.Parse .ExpectedPrefix))) := by
  constructor
  · intro N s rest h1 h5 hdis hin
    have hk : N - 1 ≤ MAX_CMD_TRIES := by omega
    have hgo := mtk_retry_go_ok num fields hnum (N - 1) MAX_CMD_TRIES 1 rest s hk hin
    simp only [send_mtk_cmd, ensure_nmea_output_disabled, hdis, if_true]
    simp only [send_mtk_cmd_without_disabling_nmea, with_retries]
    rw [hgo]
    rw [show N - 1 + 1 = N from by omega]
    simp [hdis, Except.map, Except.mapError]
  · intro s rest hdis hin
    have hgo := mtk_retry_go_fail num fields MAX_CMD_TRIES 1 rest s hin
    simp only [send_mtk_cmd, ensure_nmea_output_disabled, hdis, if_true]
    simp only [send_mtk_cmd_without_disabling_nmea, with_retries]
    rw [hgo]
    simp [hdis, Except.map, Except.mapError]

/-- Witness for C1: command `187` with fields `10,5`, one garbage reply and
then a good ack (`N = 2`): success with two written command frames and one
inter-attempt sleep. -/
theorem send_mtk_cmd_retry_contract_witness :
    legalField [49, 56, 55] ∧ 1 ≤ 2 ∧ 2 ≤ MAX_CMD_TRIES ∧
    send_mtk_cmd [49, 56, 55] [[49, 48], [53]]
        ⟨true, repBytes 1 [88, 13, 10] ++ serialize pmtk001 [[49, 56, 55], [51]] ++ [], [], []⟩
      = (⟨true, [], repBytes 2 (serialize (pmtk_name [49, 56, 55]) [[49, 48], [53]]),
          List.replicate 1 DELAY_BEFORE_RETRY_US⟩, .ok ()) := by
  refine ⟨by decide, by norm_num, by decide, ?_⟩
  have h := (send_mtk_cmd_retry_contract [49, 56, 55] [[49, 48], [53]] (by decide)).1 2
    ⟨true, repBytes 1 [88, 13, 10] ++ serialize pmtk001 [[49, 56, 55], [51]] ++ [], [], []⟩ []
    (by norm_num) (by decide) rfl rfl
  simpa using h

/-! ### Ack decoding (claim C5) -/

/-- C5 counterexample: a `PMTK001` frame with three fields — not exactly
two — is accepted (the code only enforces a minimum of two); expecting
command `185`, the ack `PMTK001,185,3,9` still decodes to `Ok`. -/
theorem ack_three_fields_cex :
    ack_of_frame [49, 56, 53] (pmtk001, [[49, 56, 53], [51], [57]]) = .ok () := by
  decide

/-- C5 amended: `read_ack` reads a `PMTK001` frame with at least two fields
(the echoed command number and a one-character status); status `'0'` maps
to `GpsSaysInvalidCommand`, `'1'` to `GpsSaysUnsupportedCommand`, `'2'` to
`GpsSaysActionFailed`, `'3'` to `Ok`; any other status value, a status not
one character long, a mismatched echoed number, a wrong frame name, or
fewer than two fields yield `Protocol`. -/
theorem ack_of_frame_named (num : List Nat) (fields : List (List Nat))
    (hlen : 2 ≤ fields.length) :
    ack_of_frame num (pmtk001, fields) = pmtk_ack_checks num fields := by
  simp only [ack_of_frame, reply_checks]
  rw [if_neg (by simp), if_neg (by omega)]

theorem read_ack_decoding (num expName : List Nat) (fields : List (List Nat)) :
    (expName ≠ pmtk001 → ack_of_frame num (expName, fields) = .error .Protocol)
    ∧ (fields.length < 2 → ack_of_frame num (pmtk001, fields) = .error .Protocol)
    ∧ (2 ≤ fields.length → (fields.getD 1 []).length ≠ 1 →
        ack_of_frame num (pmtk001, fields) = .error .Protocol)
    ∧ (2 ≤ fields.length → (fields.getD 1 []).length = 1 → fields.getD 0 [] ≠ num →
        ack_of_frame num (pmtk001, fields) = .error .Protocol)
    ∧ (2 ≤ fields.length → fields.getD 0 [] = num → fields.getD 1 [] = [48] →
        ack_of_frame num (pmtk001, fields) = .error .GpsSaysInvalidCommand)
    ∧ (2 ≤ fields.length → fields.getD 0 [] = num → fields.getD 1 [] = [49] →
        ack_of_frame num (pmtk001, fields) = .error .GpsSaysUnsupportedCommand)
    ∧ (2 ≤ fields.length → fields.getD 0 [] = num → fields.getD 1 [] = [50] →
        ack_of_frame num (pmtk001, fields) = .error .GpsSaysActionFailed)
    ∧ (2 ≤ fields.length → fields.getD 0 [] = num → fields.getD 1 [] = [51] →
        ack_of_frame num (pmtk001, fields) = .ok ())
    ∧ (∀ v : Nat, 2 ≤ fields.length → fields.getD 0 [] = num →
        fields.getD 1 [] = [v] → v ≠ 48 → v ≠ 49 → v ≠ 50 → v ≠ 51 →
        ack_of_frame num (pmtk001, fields) = .error .Protocol) := by
  refine ⟨?_, ?_, ?_, ?_, ?_, ?_, ?_, ?_, ?_⟩
  · intro hname
    simp only [ack_of_frame, reply_checks]
    rw [if_pos (show pmtk001 ≠ expName from fun h => hname h.symm)]
  · intro hlen
    simp only [ack_of_frame, reply_checks]
    rw [if_neg (by simp), if_pos hlen]
  · intro hlen hst
    rw [ack_of_frame_named num fields hlen]
    simp only [pmtk_ack_checks]
    rw [if_pos hst]
  · intro hlen hst hnum
    rw [ack_of_frame_named num fields hlen]
    simp only [pmtk_ack_checks]
    rw [if_neg (not_ne_iff.mpr hst),
      if_pos (show num ≠ fields.getD 0 [] from fun h => hnum h.symm)]
  · intro hlen h0 h1
    rw [ack_of_frame_named num fields hlen]
    simp only [pmtk_ack_checks]
    rw [if_neg (not_ne_iff.mpr (by rw [h1]; rfl)),
      if_neg (show ¬(num ≠ fields.getD 0 []) from by rw [h0]; simp), h1]
    rfl
  · intro hlen h0 h1
    rw [ack_of_frame_named num fields hlen]
    simp only [pmtk_ack_checks]
    rw [if_neg (not_ne_iff.mpr (by rw [h1]; rfl)),
      if_neg (show ¬(num ≠ fields.getD 0 []) from by rw [h0]; simp), h1]
    rfl
  · intro hlen h0 h1
    rw [ack_of_frame_named num fields hlen]
    simp only [pmtk_ack_checks]
    rw [if_neg (not_ne_iff.mpr (by rw [h1]; rfl)),
      if_neg (show ¬(num ≠ fields.getD 0 []) from by rw [h0]; simp), h1]
    rfl
  · intro hlen h0 h1
    rw [ack_of_frame_named num fields hlen]
    simp only [pmtk_ack_checks]
    rw [if_neg (not_ne_iff.mpr (by rw [h1]; rfl)),
      if_neg (show ¬(num ≠ fields.getD 0 []) from by rw [h0]; simp), h1]
    rfl
  · intro v hlen h0 h1 h48 h49 h50 h51
    rw [ack_of_frame_named num fields hlen]
    simp only [pmtk_ack_checks]
    rw [if_neg (not_ne_iff.mpr (by rw [h1]; rfl)),
      if_neg (show ¬(num ≠ fields.getD 0 []) from by rw [h0]; simp), h1]
    split <;> simp_all

/-- Witness for C5 (amended): the concrete acks of the spec scenario —
`PMTK001,600,0` expecting `600` is `GpsSaysInvalidCommand`, and
`PMTK001,604,3` expecting `604` is `Ok`. -/
theorem read_ack_decoding_witness :
    (2 ≤ ([[54, 48, 48], [48]] : List (List Nat)).length
      ∧ ack_of_frame [54, 48, 48] (pmtk001, [[54, 48, 48], [48]])
          = .error .GpsSaysInvalidCommand)
    ∧ (2 ≤ ([[54, 48, 52], [51]] : List (List Nat)).length
      ∧ ack_of_frame [54, 48, 52] (pmtk001, [[54, 48, 52], [51]]) = .ok ()) :=
  ⟨⟨by norm_num,
    (read_ack_decoding [54, 48, 48] pmtk001 [[54, 48, 48], [48]]).2.2.2.2.1
      (by norm_num) (by decide) (by decide)⟩,
   ⟨by norm_num,
    (read_ack_decoding [54, 48, 52] pmtk001 [[54, 48, 52], [51]]).2.2.2.2.2.2.2.1
      (by norm_num) (by decide) (by decide)⟩⟩

/-! ### `logger_status` (claim C6) -/

theorem withRetriesGo_first_ok {σ ε α : Type} (delay : σ → σ)
    (op : σ → σ × Except ε α) (tries r : Nat) (s s1 : σ) (v : α)
    (hop : op s = (s1, .ok v)) :
    withRetriesGo delay op tries r s = (s1, .ok (tries, v)) := by
  cases r <;> simp only [withRetriesGo] <;> rw [hop]

/-- C6: `logger_status` sends `PMTK183` (writing exactly that frame),
expects a `PMTKLOG` reply with at least 10 fields, and builds its result
from fixed indices: interval from field 4 as `u32`, `is_on` from field 7
with `"0"` truthy and `"1"` falsy (the inverted polarity, pinned by the two
`bool_field` conjuncts), record count from field 8 as `u32`, percent full
from field 9 as `IntegerPercent`. -/
theorem logger_status_contract (fields : List (List Nat)) (rest : List Nat)
    (s : GpsState) (hdis : s.disabled_nmea_output = true)
    (hin : s.input = serialize (pmtk_name [76, 79, 71]) fields ++ rest)
    (hlen : 10 ≤ fields.length) (hleg : ∀ f ∈ fields, legalField f)
    (a : Nat) (ha : integer_field (fields.getD 4 []) = .ok a)
    (b : Bool) (hb : bool_field (fields.getD 7 []) [48] [49] = .ok b)
    (c : Nat) (hc : integer_field (fields.getD 8 []) = .ok c)
    (p : IntegerPercent) (hp : integer_percent_field (fields.getD 9 []) = .ok p) :
    (logger_status s
      = ({ s with
            input := rest
            written := s.written ++ serialize (pmtk_name [49, 56, 51]) [] },
         .ok ⟨a, b, c, p⟩))
    ∧ bool_field [48] [48] [49] = .ok true
    ∧ bool_field [49] [48] [49] = .ok false := by
  refine ⟨?_, by decide, by decide⟩
  have hlegF : legalFrame (pmtk_name [76, 79, 71]) fields := ⟨by decide, by decide, hleg⟩
  have hread := read_cmd_raw_of_junk (pmtk_name [76, 79, 71]) fields [] rest
    { s with written := s.written ++ serialize (pmtk_name [49, 56, 51]) [] } hlegF
    (by simpa using hin) (Or.inr (by simp))
  have hop : (match write_cmd_raw (pmtk_name [49, 56, 51]) [] s with
      | (s2, .error e) => (s2, .error e)
      | (s2, .ok _) => read_reply_raw (pmtk_name [76, 79, 71]) 10 s2)
      = ({ s with
            input := rest
            written := s.written ++ serialize (pmtk_name [49, 56, 51]) [] },
         .ok fields) := by
    simp only [write_cmd_raw, read_reply_raw]
    rw [hread]
    simp only [reply_checks]
    rw [if_neg (by simp), if_neg (by omega)]
  simp only [logger_status, send_mtk_cmd_for_reply, ensure_nmea_output_disabled,
    hdis, if_true, with_retries]
  rw [withRetriesGo_first_ok _ _ 1 MAX_CMD_TRIES _ _ _ hop]
  dsimp only [Except.map, Except.mapError]
  rw [ha, hb, hc, hp, hdis]

/-- Witness for C6 at the reply of the repo's `test_logger_status`:
`PMTKLOG,456,0,11,31,2,0,0,0,3769,46` gives interval 2, `is_on` true,
record count 3769, percent 46. -/
theorem logger_status_contract_witness :
    (10 ≤ ([[52, 53, 54], [48], [49, 49], [51, 49], [50], [48], [48], [48],
      [51, 55, 54, 57], [52, 54]] : List (List Nat)).length)
    ∧ logger_status
        ⟨true, serialize (pmtk_name [76, 79, 71])
          [[52, 53, 54], [48], [49, 49], [51, 49], [50], [48], [48], [48],
            [51, 55, 54, 57], [52, 54]] ++ [], [], []⟩
      = (⟨true, [], serialize (pmtk_name [49, 56, 51]) [], []⟩,
         .ok ⟨2, true, 3769, ⟨46⟩⟩) := by
  refine ⟨by norm_num, ?_⟩
  have h := (logger_status_contract
    [[52, 53, 54], [48], [49, 49], [51, 49], [50], [48], [48], [48],
      [51, 55, 54, 57], [52, 54]] []
    ⟨true, serialize (pmtk_name [76, 79, 71])
      [[52, 53, 54], [48], [49, 49], [51, 49], [50], [48], [48], [48],
        [51, 55, 54, 57], [52, 54]] ++ [], [], []⟩ rfl rfl (by norm_num) (by decide)
    2 (by decide) true (by decide) 3769 (by decide) ⟨46⟩ (by decide)).1
  simpa using h

/-! ### LOCUS stream decoder (`src/locus/logged_point.rs`, claim C8) -/

/-- `LoggedPoint` as the source currently defines it: only the computed
per-point XOR (`temp_checksum`) is kept. -/
structure LoggedPoint where
  temp_checksum : Nat
  deriving DecidableEq, Repr

/-- `hex::decode_to_slice` on a chunk: consecutive pairs of hex digits
become bytes; any non-hex character fails. -/
def hexDecodePairs : List Nat → Option (List Nat)
  | [] => some []
  | [_] => none
  | a :: b :: r =>
    match hexVal a, hexVal b with
    | some x, some y => (hexDecodePairs r).map fun d => (16 * x + y) :: d
    | _, _ => none

/-- `parse_point`: computes the XOR of all 16 bytes; the enforcement of
`checksum != 0` is commented out in the source, so the function always
succeeds and stores the XOR as `temp_checksum`. -/
def parse_point (bytes : List Nat) : Except LoggedPointErr LoggedPoint :=
  .ok ⟨bytes.foldl Nat.xor 0⟩

/-- One chunk of a data group: must be exactly 8 characters
(`InvalidFieldLength`), then hex-decoded (`HexDecode`). -/
def decode_chunk (chunk : List Nat) : Except LoggedPointErr (List Nat) :=
  if chunk.length ≠ 8 then .error .InvalidFieldLength
  else
    match hexDecodePairs chunk with
    | some bytes => .ok bytes
    | none => .error .HexDecode

/-- The `chunks_exact(4)` loop of `parse_data_fields`: each group of four
chunks is decoded into 16 bytes and parsed as one point.  The final
wildcard is unreachable behind the `% 4` guard. -/
def parse_data_fields_go : List (List Nat) → Except LoggedPointErr (List LoggedPoint)
  | [] => .ok []
  | c0 :: c1 :: c2 :: c3 :: rest =>
    match decode_chunk c0 with
    | .error e => .error e
    | .ok d0 =>
      match decode_chunk c1 with
      | .error e => .error e
      | .ok d1 =>
        match decode_chunk c2 with
        | .error e => .error e
        | .ok d2 =>
          match decode_chunk c3 with
          | .error e => .error e
          | .ok d3 =>
            match parse_point (d0 ++ d1 ++ d2 ++ d3) with
            | .error e => .error e
            | .ok pt =>
              match parse_data_fields_go rest with
              | .error e => .error e
              | .ok pts => .ok (pt :: pts)
  | _ => .error .InvalidFieldCount

/-- `parse_data_fields`: the chunk count must be divisible by 4; the point
callback is modelled by collecting the emitted points in order. -/
def parse_data_fields (fields : List (List Nat)) :
    Except LoggedPointErr (List LoggedPoint) :=
  if fields.length % 4 ≠ 0 then .error .InvalidFieldCount
  else parse_data_fields_go fields

/-- The point sequence claim C8 describes, stated from its words: each
consecutive group of 4 chunks is decoded as 16 bytes forming one
basic-mode `LoggedPoint`, one point per group. -/
def claimPoints : List (List Nat) → List LoggedPoint
  | c0 :: c1 :: c2 :: c3 :: rest =>
    (match parse_point ((hexDecodePairs c0).getD [] ++ (hexDecodePairs c1).getD []
        ++ (hexDecodePairs c2).getD [] ++ (hexDecodePairs c3).getD []) with
     | .ok p => p
     | .error _ => ⟨0⟩) :: claimPoints rest
  | _ => []

theorem hexDecodePairs_isSome (n : Nat) :
    ∀ chunk : List Nat, chunk.length ≤ n → chunk.length % 2 = 0 →
      (∀ ch ∈ chunk, (hexVal ch).isSome) → (hexDecodePairs chunk).isSome := by
  induction n with
  | zero =>
    intro chunk hn _ _
    interval_cases h : chunk.length
    · rw [List.length_eq_zero] at h
      subst h
      simp [hexDecodePairs]
  | succ n ih =>
    intro chunk hn hmod hhex
    match chunk with
    | [] => simp [hexDecodePairs]
    | [a] => simp at hmod
    | a :: b :: r =>
      obtain ⟨xa, hxa⟩ := Option.isSome_iff_exists.mp (hhex a (by simp))
      obtain ⟨xb, hxb⟩ := Option.isSome_iff_exists.mp (hhex b (by simp))
      have hr := ih r (by simp at hn ⊢; omega) (by simp at hmod; omega)
        (fun ch hch => hhex ch (by simp [hch]))
      obtain ⟨d, hd⟩ := Option.isSome_iff_exists.mp hr
      simp [hexDecodePairs, hxa, hxb, hd]

theorem decode_chunk_ok (chunk : List Nat) (hlen : chunk.length = 8)
    (hhex : ∀ ch ∈ chunk, (hexVal ch).isSome) :
    decode_chunk chunk = .ok ((hexDecodePairs chunk).getD []) := by
  have h := hexDecodePairs_isSome 8 chunk (by omega) (by omega) hhex
  obtain ⟨d, hd⟩ := Option.isSome_iff_exists.mp h
  simp [decode_chunk, hlen, hd]

theorem parse_data_fields_go_ok (n : Nat) :
    ∀ fields : List (List Nat), fields.length ≤ n → fields.length % 4 = 0 →
      (∀ chunk ∈ fields, chunk.length = 8 ∧ ∀ ch ∈ chunk, (hexVal ch).isSome) →
      parse_data_fields_go fields = .ok (claimPoints fields)
        ∧ (claimPoints fields).length = fields.length / 4 := by
  induction n with
  | zero =>
    intro fields hn _ _
    have : fields = [] := List.length_eq_zero.mp (by omega)
    subst this
    simp [parse_data_fields_go, claimPoints]
  | succ n ih =>
    intro fields hn hmod hok
    match fields with
    | [] => simp [parse_data_fields_go, claimPoints]
    | [_] => simp at hmod
    | [_, _] => simp at hmod
    | [_, _, _] => simp at hmod
    | c0 :: c1 :: c2 :: c3 :: rest =>
      have h0 := hok c0 (by simp)
      have h1 := hok c1 (by simp)
      have h2 := hok c2 (by simp)
      have h3 := hok c3 (by simp)
      have hrest := ih rest (by simp at hn ⊢; omega)
        (by simp at hmod ⊢; omega)
        (fun chunk hch => hok chunk (by simp [hch]))
      refine ⟨?_, ?_⟩
      · simp only [parse_data_fields_go,
          decode_chunk_ok c0 h0.1 h0.2, decode_chunk_ok c1 h1.1 h1.2,
          decode_chunk_ok c2 h2.1 h2.2, decode_chunk_ok c3 h3.1 h3.2]
        rw [hrest.1]
        simp [claimPoints, parse_point]
      · simp only [claimPoints, List.length_cons]
        rw [hrest.2]
        omega

theorem parse_data_fields_go_bad_length (n : Nat) :
    ∀ fields : List (List Nat), fields.length ≤ n → fields.length % 4 = 0 →
      (∀ chunk ∈ fields, ∀ ch ∈ chunk, (hexVal ch).isSome) →
      (∃ chunk ∈ fields, chunk.length ≠ 8) →
      parse_data_fields_go fields = .error .InvalidFieldLength := by
  induction n with
  | zero =>
    intro fields hn _ _ hbad
    have : fields = [] := List.length_eq_zero.mp (by omega)
    subst this
    simp at hbad
  | succ n ih =>
    intro fields hn hmod hhex hbad
    match fields with
    | [] => simp at hbad
    | [_] => simp at hmod
    | [_, _] => simp at hmod
    | [_, _, _] => simp at hmod
    | c0 :: c1 :: c2 :: c3 :: rest =>
      by_cases hl0 : c0.length = 8
      · by_cases hl1 : c1.length = 8
        · by_cases hl2 : c2.length = 8
          · by_cases hl3 : c3.length = 8
            · have hrest := ih rest (by simp at hn ⊢; omega)
                (by simp at hmod ⊢; omega)
                (fun chunk hch => hhex chunk (by simp [hch]))
                (by
                  rcases hbad with ⟨chunk, hch, hlen⟩
                  simp only [List.mem_cons] at hch
                  rcases hch with h | h | h | h | h
                  · exact absurd (h ▸ hl0) hlen
                  · exact absurd (h ▸ hl1) hlen
                  · exact absurd (h ▸ hl2) hlen
                  · exact absurd (h ▸ hl3) hlen
                  · exact ⟨chunk, h, hlen⟩)
              simp only [parse_data_fields_go,
                decode_chunk_ok c0 hl0 (fun ch hch => hhex c0 (by simp) ch hch),
                decode_chunk_ok c1 hl1 (fun ch hch => hhex c1 (by simp) ch hch),
                decode_chunk_ok c2 hl2 (fun ch hch => hhex c2 (by simp) ch hch),
                decode_chunk_ok c3 hl3 (fun ch hch => hhex c3 (by simp) ch hch)]
              rw [hrest]
              simp [parse_point]
            · simp only [parse_data_fields_go,
                decode_chunk_ok c0 hl0 (fun ch hch => hhex c0 (by simp) ch hch),
                decode_chunk_ok c1 hl1 (fun ch hch => hhex c1 (by simp) ch hch),
                decode_chunk_ok c2 hl2 (fun ch hch => hhex c2 (by simp) ch hch)]
              simp [decode_chunk, hl3]
          · simp only [parse_data_fields_go,
              decode_chunk_ok c0 hl0 (fun ch hch => hhex c0 (by simp) ch hch),
              decode_chunk_ok c1 hl1 (fun ch hch => hhex c1 (by simp) ch hch)]
            simp [decode_chunk, hl2]
        · simp only [parse_data_fields_go,
            decode_chunk_ok c0 hl0 (fun ch hch => hhex c0 (by simp) ch hch)]
          simp [decode_chunk, hl1]
      · simp only [parse_data_fields_go]
        simp [decode_chunk, hl0]

/-- C8: `parse_data_fields` fails with `InvalidFieldCount` whenever the
chunk count is not divisible by 4; on hex-character chunks it fails with
`InvalidFieldLength` whenever some chunk is not exactly 8 characters; and
on groups of four 8-character hex chunks it succeeds, decoding each group
as 16 bytes forming one basic-mode `LoggedPoint`, one point per group. -/
theorem parse_data_fields_contract (fields : List (List Nat)) :
    (fields.length % 4 ≠ 0 → parse_data_fields fields = .error .InvalidFieldCount)
    ∧ (fields.length % 4 = 0 →
        (∀ chunk ∈ fields, ∀ ch ∈ chunk, (hexVal ch).isSome) →
        (∃ chunk ∈ fields, chunk.length ≠ 8) →
        parse_data_fields fields = .error .InvalidFieldLength)
    ∧ (fields.length % 4 = 0 →
        (∀ chunk ∈ fields, chunk.length = 8 ∧ ∀ ch ∈ chunk, (hexVal ch).isSome) →
        parse_data_fields fields = .ok (claimPoints fields)
          ∧ (claimPoints fields).length = fields.length / 4) := by
  refine ⟨?_, ?_, ?_⟩
  · intro h
    simp [parse_data_fields, h]
  · intro hmod hhex hbad
    rw [parse_data_fields, if_neg (by omega)]
    exact parse_data_fields_go_bad_length fields.length fields le_rfl hmod hhex hbad
  · intro hmod hok
    rw [parse_data_fields, if_neg (by omega)]
    exact parse_data_fields_go_ok fields.length fields le_rfl hmod hok

/-- Witness for C8: one group of four 8-character hex chunks
(`00000000 01000000 02000000 83000000`) decodes to a single point whose
16-byte XOR is `0x80`. -/
theorem parse_data_fields_contract_witness :
    (([[48, 48, 48, 48, 48, 48, 48, 48], [48, 49, 48, 48, 48, 48, 48, 48],
       [48, 50, 48, 48, 48, 48, 48, 48], [56, 51, 48, 48, 48, 48, 48, 48]] :
        List (List Nat)).length % 4 = 0)
    ∧ parse_data_fields
        [[48, 48, 48, 48, 48, 48, 48, 48], [48, 49, 48, 48, 48, 48, 48, 48],
         [48, 50, 48, 48, 48, 48, 48, 48], [56, 51, 48, 48, 48, 48, 48, 48]]
      = .ok (claimPoints
        [[48, 48, 48, 48, 48, 48, 48, 48], [48, 49, 48, 48, 48, 48, 48, 48],
         [48, 50, 48, 48, 48, 48, 48, 48], [56, 51, 48, 48, 48, 48, 48, 48]]) := by
  refine ⟨by norm_num, ?_⟩
  exact ((parse_data_fields_contract
    [[48, 48, 48, 48, 48, 48, 48, 48], [48, 49, 48, 48, 48, 48, 48, 48],
     [48, 50, 48, 48, 48, 48, 48, 48], [56, 51, 48, 48, 48, 48, 48, 48]]).2.2
    (by norm_num) (by decide)).1

/-! ### LOCUS flash decoder (`src/logger/parser.rs`) -/

def MAX_HEADER2_BIT_NUM : Nat := 7
def HEADER_SIZE : Nat := 64
def HEADER1_SIZE : Nat := 16
def HEADER1_CS_BUF_SIZE : Nat := 14
def HEADER2_SIZE : Nat := 44
def SECTOR_SIZE : Nat := 4096

/-- `u16::from_le_bytes` at an offset (`read_u16_at`). -/
def read_u16_at (buf : List Nat) (start : Nat) : Nat :=
  buf.getD start 0 + 256 * buf.getD (start + 1) 0

/-- `u32::from_le_bytes` at an offset (`read_u32_at`). -/
def read_u32_at (buf : List Nat) (start : Nat) : Nat :=
  buf.getD start 0 + 256 * buf.getD (start + 1) 0
    + 65536 * buf.getD (start + 2) 0 + 16777216 * buf.getD (start + 3) 0

/-- `i16::from_le_bytes` at an offset (`read_i16_at`). -/
def read_i16_at (buf : List Nat) (start : Nat) : Int :=
  let v := read_u16_at buf start
  if v < 32768 then (v : Int) else (v : Int) - 65536

/-- An IEEE-754 binary32 value as decoded from four little-endian bytes: a
NaN, an infinity, or a finite value represented exactly by
`scaled = value · 2^149` (149 = 126 + 23, enough for every subnormal). -/
inductive F32 where
  | nan
  | posInf
  | negInf
  | finite (scaled : Int)
  deriving DecidableEq, Repr

/-- `f32::from_le_bytes` at an offset (`read_f32_at`), decoded exactly. -/
def read_f32_at (buf : List Nat) (start : Nat) : F32 :=
  let bits := read_u32_at buf start
  let exp := bits / 8388608 % 256
  let frac := bits % 8388608
  let mag : Int := if exp = 0 then (frac : Int) else (8388608 + (frac : Int)) * 2 ^ (exp - 1)
  if exp = 255 then
    if frac = 0 then (if 2147483648 ≤ bits then .negInf else .posInf) else .nan
  else if 2147483648 ≤ bits then .finite (-mag) else .finite mag

/-- IEEE comparison `x <= q` against an exactly-representable constant
scaled by `2^149` (false on NaN). -/
def f32_le : F32 → Int → Bool
  | .nan, _ => false
  | .posInf, _ => false
  | .negInf, _ => true
  | .finite v, q => v ≤ q

/-- IEEE comparison `x >= q` (false on NaN). -/
def f32_ge : F32 → Int → Bool
  | .nan, _ => false
  | .posInf, _ => true
  | .negInf, _ => false
  | .finite v, q => q ≤ v

/-- `90_f32`, `180_f32` scaled by `2^149`. -/
def q90 : Int := 90 * 2 ^ 149
def q180 : Int := 180 * 2 ^ 149

/-- `Fix` (`logger/packet.rs`). -/
inductive Fix where
  | No
  | GpsFix
  | DGpsFix
  | DeadReckoning
  deriving DecidableEq, Repr

/-- `UtcDateTime` (`utc_date_time.rs`), keeping the unix seconds. -/
structure UtcDateTime where
  unix : Int
  deriving DecidableEq, Repr

/-- `UtcDateTime::from_unix`.  Modelled from the `time` crate dependency:
`OffsetDateTime::from_unix_timestamp` accepts exactly the timestamps of
years `-9999..=9999`, that is `-377705116800 ..= 253402300799` seconds.
Every `u32` input of the flash decoder lies inside this range. -/
def UtcDateTime.from_unix (timestamp : Int) : Option UtcDateTime :=
  if -377705116800 ≤ timestamp ∧ timestamp ≤ 253402300799 then some ⟨timestamp⟩
  else none

/-- `Packet` (`logger/packet.rs`). -/
structure Packet where
  time : Option UtcDateTime
  fix : Option Fix
  lat : Option F32
  lon : Option F32
  height : Option Int
  speed : Option Int
  heading : Option Nat
  hdop : Option Nat
  num_sat : Option Nat
  deriving DecidableEq, Repr

/-- `Packet::default`: every field absent. -/
def Packet.default : Packet :=
  ⟨none, none, none, none, none, none, none, none, none⟩

/-- `Stats` (`logger/parser.rs`). -/
structure Stats where
  sector_count : Nat
  invalid_sectors : Nat
  empty_sectors : Nat
  invalid_packets : Nat
  packets_parsed : Nat
  invalid_fields : Nat
  deriving DecidableEq, Repr

/-- `ContentFlags::from_bits_truncate`: mask to the known flags
`UTC|VALID|LAT|LON|HEIGHT|SPEED|TRK|HDOP|NUM_SAT`
(= 1+2+4+8+16+32+64+1024+4096 = 5247). -/
def from_bits_truncate (v : Nat) : Nat := Nat.land v 5247

/-- `u1Locus_Gen_Checksum`: XOR of the bytes. -/
def u8_checksum_for (bytes : List Nat) : Nat := bytes.foldl Nat.xor 0

/-- The `chunks_exact(2)` fold of `u2Locus_Gen_Checksum`: XOR of the
little-endian `u16` words (a trailing odd byte is dropped, and the length
is asserted even at the one call site). -/
def u16_checksum_go (acc : Nat) : List Nat → Nat
  | a :: b :: r => u16_checksum_go (Nat.xor acc (a + 256 * b)) r
  | _ => acc

def u16_checksum_for (bytes : List Nat) : Nat := u16_checksum_go 0 bytes

/-- `uCalculateSize`: byte size of one packet for a flag set, plus one
checksum byte (the `TRK`-before-`SPEED` order follows the source). -/
def packet_size (content : Nat) : Nat :=
  (if Nat.land content 1 = 1 then 4 else 0)
  + (if Nat.land content 2 = 2 then 1 else 0)
  + (if Nat.land content 4 = 4 then 4 else 0)
  + (if Nat.land content 8 = 8 then 4 else 0)
  + (if Nat.land content 16 = 16 then 2 else 0)
  + (if Nat.land content 64 = 64 then 2 else 0)
  + (if Nat.land content 32 = 32 then 2 else 0)
  + (if Nat.land content 1024 = 1024 then 2 else 0)
  + (if Nat.land content 4096 = 4096 then 1 else 0)
  + 1

/-- The downward scan of `Locus_Find_BitMap`: walk `header[16 + i]` for
`i = n-1, …, 0` and return the first index (and byte) that is not `0xFF`.
The source starts at `HEADER2_SIZE - 1 = 43`. -/
def scanDown (header : List Nat) : Nat → Option (Nat × Nat)
  | 0 => none
  | i + 1 =>
    let d := header.getD (HEADER1_SIZE + i) 0
    if d ≠ 255 then some (i, d) else scanDown header i

/-- The shift loop of `Locus_Find_BitMap`: the least `j ≤ 7` with
`data >> j = 0`, or 8 when there is none.  `fuel` bounds the at most nine
iterations of the `while` loop (`j = 0..=8`) and never expires at the call
site (`fuel = 9`, `j = 0`). -/
def findShiftGo (data : Nat) (j fuel : Nat) : Nat :=
  match fuel with
  | 0 => j
  | fuel + 1 =>
    if j ≤ 7 then
      if Nat.shiftRight data j = 0 then j else findShiftGo data (j + 1) fuel
    else j

/-- `packet_count` (`Locus_Find_BitMap` in the reference): bitmap scan over
`HEADER2_SIZE = 44` bytes of header-2. -/
def packet_count (header : List Nat) : Nat :=
  match scanDown header HEADER2_SIZE with
  | none => 0
  | some (i, data) =>
    let j := findShiftGo data 0 9
    if j = 0 then (i + 1) * 8 else i * 8 + (MAX_HEADER2_BIT_NUM + 1 - j)

/-- `SectorHeader` (`logger/parser.rs`). -/
structure SectorHeader where
  content_flags : Nat
  packet_size : Nat
  packet_count : Nat
  deriving DecidableEq, Repr

/-- `SectorHeader::parse`: header-1 checksum over bytes `0..14` against the
`u16` at `14..16`; content flags from the `u32` at offset 4, masked. -/
def SectorHeader.parse (header : List Nat) : Option SectorHeader :=
  let expected_checksum := read_u16_at header HEADER1_CS_BUF_SIZE
  let checksum := u16_checksum_for (header.take HEADER1_CS_BUF_SIZE)
  if checksum ≠ expected_checksum then none
  else
    let content_flags := from_bits_truncate (read_u32_at header 4)
    some ⟨content_flags, AdaGps.packet_size content_flags, AdaGps.packet_count header⟩

/-! The field blocks of `parse_packet`, in source order, each acting on the
running `(packet, stats, addr)` triple. -/

def step_utc (content_flags : Nat) (data : List Nat) :
    Packet × Stats × Nat → Packet × Stats × Nat
  | (p, st, addr) =>
    if Nat.land content_flags 1 = 1 then
      match UtcDateTime.from_unix (read_u32_at data addr : Int) with
      | some t => ({ p with time := some t }, st, addr + 4)
      | none => (p, { st with invalid_fields := st.invalid_fields + 1 }, addr + 4)
    else (p, st, addr)

def step_valid (content_flags : Nat) (data : List Nat) :
    Packet × Stats × Nat → Packet × Stats × Nat
  | (p, st, addr) =>
    if Nat.land content_flags 2 = 2 then
      let value := data.getD addr 0
      if Nat.land value 4 = 4 then ({ p with fix := some .DGpsFix }, st, addr + 1)
      else if Nat.land value 2 = 2 then ({ p with fix := some .GpsFix }, st, addr + 1)
      else if Nat.land value 64 = 64 then ({ p with fix := some .DeadReckoning }, st, addr + 1)
      else if value = 0 then ({ p with fix := some .No }, st, addr + 1)
      else (p, { st with invalid_fields := st.invalid_fields + 1 }, addr + 1)
    else (p, st, addr)

def step_lat (content_flags : Nat) (data : List Nat) :
    Packet × Stats × Nat → Packet × Stats × Nat
  | (p, st, addr) =>
    if Nat.land content_flags 4 = 4 then
      let lat := read_f32_at data addr
      if f32_le lat q90 && f32_ge lat (-q90) then ({ p with lat := some lat }, st, addr + 4)
      else (p, { st with invalid_fields := st.invalid_fields + 1 }, addr + 4)
    else (p, st, addr)

def step_lon (content_flags : Nat) (data : List Nat) :
    Packet × Stats × Nat → Packet × Stats × Nat
  | (p, st, addr) =>
    if Nat.land content_flags 8 = 8 then
      let lon := read_f32_at data addr
      if f32_le lon q180 && f32_ge lon (-q180) then ({ p with lon := some lon }, st, addr + 4)
      else (p, { st with invalid_fields := st.invalid_fields + 1 }, addr + 4)
    else (p, st, addr)

def step_height (content_flags : Nat) (data : List Nat) :
    Packet × Stats × Nat → Packet × Stats × Nat
  | (p, st, addr) =>
    if Nat.land content_flags 16 = 16 then
      ({ p with height := some (read_i16_at data addr) }, st, addr + 2)
    else (p, st, addr)

def step_speed (content_flags : Nat) (data : List Nat) :
    Packet × Stats × Nat → Packet × Stats × Nat
  | (p, st, addr) =>
    if Nat.land content_flags 32 = 32 then
      ({ p with speed := some (read_i16_at data addr) }, st, addr + 2)
    else (p, st, addr)

def step_trk (content_flags : Nat) (data : List Nat) :
    Packet × Stats × Nat → Packet × Stats × Nat
  | (p, st, addr) =>
    if Nat.land content_flags 64 = 64 then
      ({ p with heading := some (read_u16_at data addr) }, st, addr + 2)
    else (p, st, addr)

def step_hdop (content_flags : Nat) (data : List Nat) :
    Packet × Stats × Nat → Packet × Stats × Nat
  | (p, st, addr) =>
    if Nat.land content_flags 1024 = 1024 then
      ({ p with hdop := some (read_u16_at data addr) }, st, addr + 2)
    else (p, st, addr)

def step_num_sat (content_flags : Nat) (data : List Nat) :
    Packet × Stats × Nat → Packet × Stats × Nat
  | (p, st, addr) =>
    if Nat.land content_flags 4096 = 4096 then
      ({ p with num_sat := some (data.getD addr 0) }, st, addr + 1)
    else (p, st, addr)

/-- `parse_packet`: split off the trailing checksum byte, verify the XOR of
the payload (counting an `invalid_packets` and emitting nothing on
mismatch), then decode the present fields in the fixed order and emit the
packet, counting it in `packets_parsed`. -/
def parse_packet (content_flags : Nat) (stats : Stats) (data : List Nat) :
    Stats × Option Packet :=
  let checksum := data.getD (data.length - 1) 0
  let payload := data.take (data.length - 1)
  if u8_checksum_for payload ≠ checksum then
    ({ stats with invalid_packets := stats.invalid_packets + 1 }, none)
  else
    let r := step_num_sat content_flags payload (step_hdop content_flags payload
      (step_trk content_flags payload (step_speed content_flags payload
        (step_height content_flags payload (step_lon content_flags payload
          (step_lat content_flags payload (step_valid content_flags payload
            (step_utc content_flags payload (Packet.default, stats, 0)))))))))
    ({ r.2.1 with packets_parsed := r.2.1.packets_parsed + 1 }, some r.1)

/-- The packet loop of `parse_sector`, iterating `remaining` down from the
packet count with `i` the packet index.  The slice
`&sector[start .. start + packet_size]` panics when it exceeds the sector;
`none` marks that panic. -/
def packetLoop (content_flags psize : Nat) (sector : List Nat) :
    Nat → Nat → Stats → List Packet → Option (Stats × List Packet)
  | 0, _, stats, acc => some (stats, acc)
  | r + 1, i, stats, acc =>
    let start := HEADER_SIZE + i * psize
    if start + psize ≤ sector.length then
      let pr := parse_packet content_flags stats ((sector.drop start).take psize)
      packetLoop content_flags psize sector r (i + 1) pr.1 (acc ++ pr.2.toList)
    else none

/-- `parse_sector`: parse the 64-byte header (counting `invalid_sectors` on
checksum mismatch and `empty_sectors` on packet count 0), then run the
packet loop over `packet_count` packets of `packet_size` bytes each,
collecting the emitted packets.  `none` is the out-of-bounds panic of the
packet slice. -/
def parse_sector (stats : Stats) (sector : List Nat) :
    Option (Stats × List Packet) :=
  match SectorHeader.parse (sector.take HEADER_SIZE) with
  | none => some ({ stats with invalid_sectors := stats.invalid_sectors + 1 }, [])
  | some h =>
    if h.packet_count = 0 then
      some ({ stats with empty_sectors := stats.empty_sectors + 1 }, [])
    else packetLoop h.content_flags h.packet_size sector h.packet_count 0 stats []

/-! ### The bitmap packet count (claim C2) -/

/-- The packet count as claim C2 words it: the very same scan, but walking
the 48 bytes `header[16..64]` instead of the source's
`HEADER2_SIZE = 44`. -/
def packet_count_claim48 (header : List Nat) : Nat :=
  match scanDown header 48 with
  | none => 0
  | some (i, data) =>
    let j := findShiftGo data 0 9
    if j = 0 then (i + 1) * 8 else i * 8 + (MAX_HEADER2_BIT_NUM + 1 - j)

/-- A 64-byte header whose bytes 16..59 are all `0xFF`, byte 60 is 0 and
bytes 61..63 are `0xFF`: the claimed 48-byte scan finds the cleared byte at
index 44 and counts `(44 + 1) · 8 = 360` packets, but the source's 44-byte
scan sees only `0xFF` and counts 0. -/
def hdrCex : List Nat :=
  List.replicate 16 0 ++ List.replicate 44 255 ++ [0, 255, 255, 255]

/-- C2 counterexample: the source's `packet_count` and the claim's 48-byte
scan disagree on `hdrCex`. -/
theorem packet_count_48_cex :
    hdrCex.length = 64 ∧ packet_count hdrCex = 0
      ∧ packet_count_claim48 hdrCex = 360 := by
  decide

theorem scanDown_none (header : List Nat) :
    ∀ n, (∀ k, k < n → header.getD (HEADER1_SIZE + k) 0 = 255) →
      scanDown header n = none := by
  intro n
  induction n with
  | zero => intro _; rfl
  | succ m ih =>
    intro h
    simp only [scanDown]
    rw [h m (by omega), if_neg (by simp)]
    exact ih fun k hk => h k (by omega)

theorem scanDown_some (header : List Nat) (i b : Nat) (hb : b ≠ 255)
    (hget : header.getD (HEADER1_SIZE + i) 0 = b) :
    ∀ n, i < n → (∀ k, i < k → k < n → header.getD (HEADER1_SIZE + k) 0 = 255) →
      scanDown header n = some (i, b) := by
  intro n
  induction n with
  | zero => intro h; omega
  | succ m ih =>
    intro hin hup
    by_cases him : i = m
    · subst him
      simp only [scanDown]
      rw [hget, if_pos hb]
    · have him' : i < m := by omega
      simp only [scanDown]
      rw [hup m (by omega) (by omega), if_neg (by simp)]
      exact ih him' fun k hk1 hk2 => hup k hk1 (by omega)

theorem findShiftGo_spec (b j : Nat) (hb : b < 256)
    (hj : Nat.shiftRight b j = 0)
    (hmin : ∀ j2, j2 < j → Nat.shiftRight b j2 ≠ 0) :
    findShiftGo b 0 9 = j := by
  have hj8 : j ≤ 8 := by
    by_contra h
    push_neg at h
    refine hmin 8 (by omega) ?_
    show b >>> 8 = 0
    rw [Nat.shiftRight_eq_div_pow]
    exact Nat.div_eq_of_lt (by norm_num; omega)
  suffices hgen : ∀ d k fuel, k + d = j → d < fuel → findShiftGo b k fuel = j by
    exact hgen j 0 9 (by omega) (by omega)
  intro d
  induction d with
  | zero =>
    intro k fuel hk hfuel
    have hkj : k = j := by omega
    subst hkj
    match fuel, hfuel with
    | f + 1, _ =>
      by_cases h7 : k ≤ 7
      · simp only [findShiftGo]
        rw [if_pos h7, if_pos hj]
      · simp only [findShiftGo]
        rw [if_neg h7]
  | succ d ih =>
    intro k fuel hk hfuel
    have hk7 : k ≤ 7 := by omega
    have hne := hmin k (by omega)
    match fuel, hfuel with
    | f + 1, hfuel =>
      simp only [findShiftGo]
      rw [if_pos hk7, if_neg hne]
      exact ih (k + 1) f (by omega) (by omega)

/-- C2 amended: the flash-sector packet count walks the `HEADER2_SIZE = 44`
bytes `header[16..60]` (not 48 bytes) from last to first; with all of them
`0xFF` the count is 0; otherwise, with `i` the index of the last byte `b`
that is not `0xFF` and `j` the least shift with `b >> j = 0`, the count is
`(i + 1) · 8` when `j = 0` and `i · 8 + (MAX_HEADER2_BIT_NUM + 1 − j)`
otherwise. -/
theorem packet_count_bitmap_spec (header : List Nat) :
    ((∀ k, k < HEADER2_SIZE → header.getD (HEADER1_SIZE + k) 0 = 255) →
      packet_count header = 0)
    ∧ (∀ i b j, i < HEADER2_SIZE → header.getD (HEADER1_SIZE + i) 0 = b →
        b ≠ 255 → b < 256 →
        (∀ k, i < k → k < HEADER2_SIZE → header.getD (HEADER1_SIZE + k) 0 = 255) →
        Nat.shiftRight b j = 0 → (∀ j2, j2 < j → Nat.shiftRight b j2 ≠ 0) →
        packet_count header
          = if j = 0 then (i + 1) * 8 else i * 8 + (MAX_HEADER2_BIT_NUM + 1 - j)) := by
  constructor
  · intro h
    simp only [packet_count]
    rw [scanDown_none header HEADER2_SIZE h]
  · intro i b j hi hget hb hb256 hup hj hmin
    simp only [packet_count]
    rw [scanDown_some header i b hb hget HEADER2_SIZE hi hup]
    simp only []
    rw [findShiftGo_spec b j hb256 hj hmin]

/-- Witness for C2 (amended): a header whose header-2 is `[0, 0, 3]`
followed by 41 bytes of `0xFF`: the last non-`0xFF` byte is `b = 3` at
`i = 2`, the least shift with `3 >> j = 0` is `j = 2`, and the count is
`2·8 + (7 + 1 − 2) = 22`. -/
theorem packet_count_bitmap_spec_witness :
    ((2 : Nat) < HEADER2_SIZE
      ∧ (List.replicate 16 0 ++ [0, 0, 3] ++ List.replicate 41 255
          ++ [9, 9, 9, 9] : List Nat).getD (HEADER1_SIZE + 2) 0 = 3
      ∧ (3 : Nat) ≠ 255 ∧ Nat.shiftRight 3 2 = 0)
    ∧ packet_count (List.replicate 16 0 ++ [0, 0, 3] ++ List.replicate 41 255
        ++ [9, 9, 9, 9]) = 22 := by
  refine ⟨⟨by decide, by decide, by decide, by decide⟩, ?_⟩
  have h := (packet_count_bitmap_spec (List.replicate 16 0 ++ [0, 0, 3]
      ++ List.replicate 41 255 ++ [9, 9, 9, 9])).2 2 3 2
    (by decide) (by decide) (by decide) (by decide)
    (by intro k hk1 hk2
        have h44 : k < 44 := hk2
        interval_cases k <;> rfl)
    (by decide) (by decide)
  simpa using h

/-! ### Field validation in `parse_packet` (claim C7) -/

/-- Payload address of the VALID byte: the UTC field, when present,
occupies the first four payload bytes. -/
def validAddr (cf : Nat) : Nat := if Nat.land cf 1 = 1 then 4 else 0

/-- Payload address of the LAT field. -/
def latAddr (cf : Nat) : Nat :=
  validAddr cf + (if Nat.land cf 2 = 2 then 1 else 0)

/-- Payload address of the LON field. -/
def lonAddr (cf : Nat) : Nat :=
  latAddr cf + (if Nat.land cf 4 = 4 then 4 else 0)

/-- 1 exactly when the UTC field is present and its unix seconds are
rejected by `UtcDateTime::from_unix`. -/
def utcBad (cf : Nat) (d : List Nat) : Nat :=
  if Nat.land cf 1 = 1 ∧ UtcDateTime.from_unix (read_u32_at d 0 : Int) = none
  then 1 else 0

/-- 1 exactly when the VALID field is present and matches none of the four
accepted fix patterns. -/
def validBad (cf : Nat) (d : List Nat) : Nat :=
  if Nat.land cf 2 = 2 ∧ Nat.land (d.getD (validAddr cf) 0) 4 ≠ 4
      ∧ Nat.land (d.getD (validAddr cf) 0) 2 ≠ 2
      ∧ Nat.land (d.getD (validAddr cf) 0) 64 ≠ 64
      ∧ d.getD (validAddr cf) 0 ≠ 0
  then 1 else 0

/-- The LAT range test of the source: `lat <= 90 && lat >= -90`. -/
def latOk (cf : Nat) (d : List Nat) : Bool :=
  f32_le (read_f32_at d (latAddr cf)) q90
    && f32_ge (read_f32_at d (latAddr cf)) (-q90)

/-- 1 exactly when the LAT field is present and out of `[-90, 90]`. -/
def latBad (cf : Nat) (d : List Nat) : Nat :=
  if Nat.land cf 4 = 4 ∧ latOk cf d = false then 1 else 0

/-- The LON range test of the source: `lon <= 180 && lon >= -180`. -/
def lonOk (cf : Nat) (d : List Nat) : Bool :=
  f32_le (read_f32_at d (lonAddr cf)) q180
    && f32_ge (read_f32_at d (lonAddr cf)) (-q180)

/-- 1 exactly when the LON field is present and out of `[-180, 180]`. -/
def lonBad (cf : Nat) (d : List Nat) : Nat :=
  if Nat.land cf 8 = 8 ∧ lonOk cf d = false then 1 else 0

theorem option_elim_none_some {α : Type} (o : Option α) :
    o.elim (none : Option α) some = o := by
  cases o <;> rfl

theorem step_utc_eq (cf : Nat) (d : List Nat) (p : Packet) (st : Stats) :
    step_utc cf d (p, st, 0) =
      ({ p with time := if Nat.land cf 1 = 1
          then (UtcDateTime.from_unix (read_u32_at d 0 : Int)).elim p.time some
          else p.time },
       { st with invalid_fields := st.invalid_fields + utcBad cf d },
       validAddr cf) := by
  dsimp only [step_utc, utcBad, validAddr]
  by_cases hU : Nat.land cf 1 = 1
  · cases hf : UtcDateTime.from_unix (read_u32_at d 0 : Int) with
    | none => simp [hU, hf]
    | some t => simp [hU, hf]
  · simp [hU]

theorem step_valid_eq (cf : Nat) (d : List Nat) (p : Packet) (st : Stats) :
    step_valid cf d (p, st, validAddr cf) =
      ({ p with fix := if Nat.land cf 2 = 2 then
            (if Nat.land (d.getD (validAddr cf) 0) 4 = 4 then some Fix.DGpsFix
             else if Nat.land (d.getD (validAddr cf) 0) 2 = 2 then some Fix.GpsFix
             else if Nat.land (d.getD (validAddr cf) 0) 64 = 64 then
               some Fix.DeadReckoning
             else if d.getD (validAddr cf) 0 = 0 then some Fix.No
             else p.fix)
          else p.fix },
       { st with invalid_fields := st.invalid_fields + validBad cf d },
       latAddr cf) := by
  dsimp only [step_valid, validBad, latAddr]
  by_cases hV : Nat.land cf 2 = 2
  · simp only [hV, if_true, true_and]
    split_ifs <;> simp_all
  · simp [hV]

theorem step_lat_eq (cf : Nat) (d : List Nat) (p : Packet) (st : Stats) :
    step_lat cf d (p, st, latAddr cf) =
      ({ p with lat := if Nat.land cf 4 = 4 then
            (if latOk cf d = true then some (read_f32_at d (latAddr cf)) else p.lat)
          else p.lat },
       { st with invalid_fields := st.invalid_fields + latBad cf d },
       lonAddr cf) := by
  dsimp only [step_lat, latOk, latBad, lonAddr]
  by_cases hLa : Nat.land cf 4 = 4
  · cases hb : f32_le (read_f32_at d (latAddr cf)) q90
        && f32_ge (read_f32_at d (latAddr cf)) (-q90) with
    | true => simp [hLa, hb]
    | false => simp [hLa, hb]
  · simp [hLa]

theorem step_lon_eq (cf : Nat) (d : List Nat) (p : Packet) (st : Stats) :
    step_lon cf d (p, st, lonAddr cf) =
      ({ p with lon := if Nat.land cf 8 = 8 then
            (if lonOk cf d = true then some (read_f32_at d (lonAddr cf)) else p.lon)
          else p.lon },
       { st with invalid_fields := st.invalid_fields + lonBad cf d },
       lonAddr cf + (if Nat.land cf 8 = 8 then 4 else 0)) := by
  dsimp only [step_lon, lonOk, lonBad]
  by_cases hLo : Nat.land cf 8 = 8
  · cases hb : f32_le (read_f32_at d (lonAddr cf)) q180
        && f32_ge (read_f32_at d (lonAddr cf)) (-q180) with
    | true => simp [hLo, hb]
    | false => simp [hLo, hb]
  · simp [hLo]

theorem step_height_eq (cf : Nat) (d : List Nat) (p : Packet) (st : Stats) (a : Nat) :
    step_height cf d (p, st, a) =
      ({ p with height := if Nat.land cf 16 = 16 then some (read_i16_at d a)
          else p.height },
       st, a + (if Nat.land cf 16 = 16 then 2 else 0)) := by
  dsimp only [step_height]
  by_cases h : Nat.land cf 16 = 16 <;> simp [h]

theorem step_speed_eq (cf : Nat) (d : List Nat) (p : Packet) (st : Stats) (a : Nat) :
    step_speed cf d (p, st, a) =
      ({ p with speed := if Nat.land cf 32 = 32 then some (read_i16_at d a)
          else p.speed },
       st, a + (if Nat.land cf 32 = 32 then 2 else 0)) := by
  dsimp only [step_speed]
  by_cases h : Nat.land cf 32 = 32 <;> simp [h]

theorem step_trk_eq (cf : Nat) (d : List Nat) (p : Packet) (st : Stats) (a : Nat) :
    step_trk cf d (p, st, a) =
      ({ p with heading := if Nat.land cf 64 = 64 then some (read_u16_at d a)
          else p.heading },
       st, a + (if Nat.land cf 64 = 64 then 2 else 0)) := by
  dsimp only [step_trk]
  by_cases h : Nat.land cf 64 = 64 <;> simp [h]

theorem step_hdop_eq (cf : Nat) (d : List Nat) (p : Packet) (st : Stats) (a : Nat) :
    step_hdop cf d (p, st, a) =
      ({ p with hdop := if Nat.land cf 1024 = 1024 then some (read_u16_at d a)
          else p.hdop },
       st, a + (if Nat.land cf 1024 = 1024 then 2 else 0)) := by
  dsimp only [step_hdop]
  by_cases h : Nat.land cf 1024 = 1024 <;> simp [h]

theorem step_num_sat_eq (cf : Nat) (d : List Nat) (p : Packet) (st : Stats) (a : Nat) :
    step_num_sat cf d (p, st, a) =
      ({ p with num_sat := if Nat.land cf 4096 = 4096 then some (d.getD a 0)
          else p.num_sat },
       st, a + (if Nat.land cf 4096 = 4096 then 1 else 0)) := by
  dsimp only [step_num_sat]
  by_cases h : Nat.land cf 4096 = 4096 <;> simp [h]

/-- C7: on a packet whose checksum verifies, `parse_packet` always emits a
packet and counts it in `packets_parsed`, never touching
`invalid_packets`; the UTC field is stored exactly when
`UtcDateTime::from_unix` accepts it, the LAT field exactly when it lies in
`[-90, 90]`, the LON field exactly when it lies in `[-180, 180]`, and
`invalid_fields` grows by one for each rejected field; and
`IntegerPercent::new` rejects every value above 100. -/
theorem parse_packet_field_validation (cf : Nat) (stats : Stats) (data : List Nat)
    (hcs : u8_checksum_for (data.take (data.length - 1))
        = data.getD (data.length - 1) 0) :
    (∃ p stats2,
      parse_packet cf stats data = (stats2, some p)
        ∧ stats2.packets_parsed = stats.packets_parsed + 1
        ∧ stats2.invalid_packets = stats.invalid_packets
        ∧ stats2.invalid_fields = stats.invalid_fields
            + utcBad cf (data.take (data.length - 1))
            + validBad cf (data.take (data.length - 1))
            + latBad cf (data.take (data.length - 1))
            + lonBad cf (data.take (data.length - 1))
        ∧ p.time = (if Nat.land cf 1 = 1
            then UtcDateTime.from_unix (read_u32_at (data.take (data.length - 1)) 0 : Int)
            else none)
        ∧ p.lat = (if Nat.land cf 4 = 4 ∧ latOk cf (data.take (data.length - 1)) = true
            then some (read_f32_at (data.take (data.length - 1)) (latAddr cf))
            else none)
        ∧ p.lon = (if Nat.land cf 8 = 8 ∧ lonOk cf (data.take (data.length - 1)) = true
            then some (read_f32_at (data.take (data.length - 1)) (lonAddr cf))
            else none))
    ∧ (∀ v, 100 < v → IntegerPercent.new v = none) := by
  constructor
  · rcases hT : step_num_sat cf (data.take (data.length - 1))
        (step_hdop cf (data.take (data.length - 1))
          (step_trk cf (data.take (data.length - 1))
            (step_speed cf (data.take (data.length - 1))
              (step_height cf (data.take (data.length - 1))
                (step_lon cf (data.take (data.length - 1))
                  (step_lat cf (data.take (data.length - 1))
                    (step_valid cf (data.take (data.length - 1))
                      (step_utc cf (data.take (data.length - 1))
                        (Packet.default, stats, 0))))))))) with ⟨pT, stT, aT⟩
    have hT2 := hT
    simp only [step_utc_eq, step_valid_eq, step_lat_eq, step_lon_eq, step_height_eq,
      step_speed_eq, step_trk_eq, step_hdop_eq, step_num_sat_eq, Prod.mk.injEq] at hT2
    obtain ⟨hP, hS, -⟩ := hT2
    have hok : ¬(u8_checksum_for (data.take (data.length - 1))
        ≠ data.getD (data.length - 1) 0) := fun h2 => h2 hcs
    refine ⟨pT, { stT with packets_parsed := stT.packets_parsed + 1 },
      ?_, ?_, ?_, ?_, ?_, ?_, ?_⟩
    · dsimp only [parse_packet]
      rw [if_neg hok, hT]
    · rw [← hS]
    · rw [← hS]
    · rw [← hS]
    · rw [← hP]
      simp [Packet.default, option_elim_none_some]
    · rw [← hP]
      simp [Packet.default, ite_and]
    · rw [← hP]
      simp [Packet.default, ite_and]
  · intro v hv
    exact if_neg (by omega)

/-- A 23-byte packet for content flags `0x147F`: UTC 0 (accepted), VALID
`3` (GPS fix), LAT `100.0` (rejected), LON `100.0` (accepted), zero
height, speed, heading and HDOP, 7 satellites, checksum byte 4. -/
def pkt0 : List Nat :=
  [0, 0, 0, 0, 3, 0, 0, 200, 66, 0, 0, 200, 66, 0, 0, 0, 0, 0, 0, 0, 0, 7, 4]

theorem parse_packet_field_validation_witness :
    (u8_checksum_for (pkt0.take (pkt0.length - 1))
        = pkt0.getD (pkt0.length - 1) 0)
    ∧ ((∃ p stats2,
      parse_packet 5247 ⟨0, 0, 0, 0, 0, 0⟩ pkt0 = (stats2, some p)
        ∧ stats2.packets_parsed = Stats.packets_parsed ⟨0, 0, 0, 0, 0, 0⟩ + 1
        ∧ stats2.invalid_packets = Stats.invalid_packets ⟨0, 0, 0, 0, 0, 0⟩
        ∧ stats2.invalid_fields = Stats.invalid_fields ⟨0, 0, 0, 0, 0, 0⟩
            + utcBad 5247 (pkt0.take (pkt0.length - 1))
            + validBad 5247 (pkt0.take (pkt0.length - 1))
            + latBad 5247 (pkt0.take (pkt0.length - 1))
            + lonBad 5247 (pkt0.take (pkt0.length - 1))
        ∧ p.time = (if Nat.land 5247 1 = 1
            then UtcDateTime.from_unix (read_u32_at (pkt0.take (pkt0.length - 1)) 0 : Int)
            else none)
        ∧ p.lat = (if Nat.land 5247 4 = 4 ∧ latOk 5247 (pkt0.take (pkt0.length - 1)) = true
            then some (read_f32_at (pkt0.take (pkt0.length - 1)) (latAddr 5247))
            else none)
        ∧ p.lon = (if Nat.land 5247 8 = 8 ∧ lonOk 5247 (pkt0.take (pkt0.length - 1)) = true
            then some (read_f32_at (pkt0.take (pkt0.length - 1)) (lonAddr 5247))
            else none))
    ∧ (∀ v, 100 < v → IntegerPercent.new v = none)) :=
  ⟨by decide, parse_packet_field_validation 5247 ⟨0, 0, 0, 0, 0, 0⟩ pkt0 (by decide)⟩

/-! ### An out-of-bounds packet slice in `parse_sector` (claim C9) -/

/-- Header-1 of the out-of-bounds sector: content flags `0x147F` (all nine
fields present, so packet size 23) at offset 4, and the matching header-1
checksum `0x147F` in bytes 14..16; header-2 all zero. -/
def hdrC : List Nat :=
  [0, 0, 0, 0, 127, 20, 0, 0, 0, 0, 0, 0, 0, 0, 127, 20]
    ++ List.replicate 44 0 ++ [0, 0, 0, 0]

/-- A full 4096-byte sector: `hdrC` then 4032 zero bytes.  The all-zero
header-2 bitmap gives `packet_count = 352`, but only 175 packets of 23
bytes fit in the 4032 data bytes. -/
def sectorC : List Nat := hdrC ++ List.replicate 4032 0

theorem sectorC_length : sectorC.length = 4096 := by
  simp only [sectorC, hdrC, List.length_append, List.length_replicate,
    List.length_cons, List.length_nil]

theorem packetLoop_succ (cf psize : Nat) (sector : List Nat) (r i : Nat)
    (stats : Stats) (acc : List Packet) :
    packetLoop cf psize sector (r + 1) i stats acc =
      (if HEADER_SIZE + i * psize + psize ≤ sector.length then
        packetLoop cf psize sector r (i + 1)
          (parse_packet cf stats ((sector.drop (HEADER_SIZE + i * psize)).take psize)).1
          (acc ++ (parse_packet cf stats
            ((sector.drop (HEADER_SIZE + i * psize)).take psize)).2.toList)
       else none) := rfl

theorem sectorC_header :
    SectorHeader.parse (sectorC.take HEADER_SIZE) = some ⟨5247, 23, 352⟩ := by
  decide

theorem packetLoop_oob : ∀ d, d ≤ 175 → ∀ stats acc,
    packetLoop 5247 23 sectorC (177 + d) (175 - d) stats acc = none := by
  intro d
  induction d with
  | zero =>
    intro _ stats acc
    show packetLoop 5247 23 sectorC (176 + 1) 175 stats acc = none
    have hcond : ¬(HEADER_SIZE + 175 * 23 + 23 ≤ sectorC.length) := by
      simp only [HEADER_SIZE, sectorC_length]
      omega
    rw [packetLoop_succ, if_neg hcond]
  | succ d ih =>
    intro hd stats acc
    show packetLoop 5247 23 sectorC ((177 + d) + 1) (175 - (d + 1)) stats acc = none
    have hcond : HEADER_SIZE + (175 - (d + 1)) * 23 + 23 ≤ sectorC.length := by
      simp only [HEADER_SIZE, sectorC_length]
      omega
    rw [packetLoop_succ, if_pos hcond]
    have hidx : 175 - (d + 1) + 1 = 175 - d := by omega
    rw [hidx]
    exact ih (by omega) _ _

/-- C9 refuted: a 4096-byte sector whose header-1 checksum validates (all
nine content flags set, packet size 23) and whose all-zero header-2 bitmap
yields `packet_count = 352`; the packet slice at index 175 spans bytes
`4089..4112`, beyond the 4096-byte sector, so the decoder's slice indexing
goes out of bounds (`none` is that panic). -/
theorem parse_sector_oob :
    parse_sector ⟨0, 0, 0, 0, 0, 0⟩ sectorC = none := by
  dsimp only [parse_sector]
  rw [sectorC_header]
  dsimp only
  rw [if_neg (by decide : ¬((352 : Nat) = 0))]
  exact packetLoop_oob 175 (by omega) ⟨0, 0, 0, 0, 0, 0⟩ []

end AdaGps
